import Mathlib

/-!
# password_generator: a shallow embedding of the generator and its random source

The development follows `generator.go`, `random.go` and `constants.go` of the
root package, and the second copy of the same code under `src/` (namespace `Src`).

* A Go `string` is a byte sequence; it is modelled as a `List Char` in which
  every element stands for one byte (all constants of the package are ASCII).
* A Go `int` / `int64` is an `Int`; arithmetic that the source performs on
  machine integers goes through `wrap64` (two's complement, 64 bit).
* `crypto/rand.Reader` is an oracle `Entropy`: the list of the reads it
  delivers, in order. A read either fails (`none`) or supplies a number
  (`some r`, the bytes read, big-endian); a read past the end of the list fails.
* A Go call ends in one of three ways: a value, a returned `error`, or a
  run-time panic; this is the type `Outcome`.
-/

namespace PassGen

/-! ## Machine integers -/

/-- Two's complement reduction of an integer to the range of a 64-bit Go `int`. -/
def wrap64 (x : Int) : Int :=
  (x + 9223372036854775808) % 18446744073709551616 - 9223372036854775808

/-- The values a 64-bit Go `int` can hold. -/
def inInt64 (x : Int) : Prop :=
  -9223372036854775808 ≤ x ∧ x ≤ 9223372036854775807

instance (x : Int) : Decidable (inInt64 x) := by
  unfold inInt64; infer_instance

/-! ## constants.go -/

def lowercaseLetters : List Char := "abcdefghijklmnopqrstuvwxyz".toList
def uppercaseLetters : List Char := "ABCDEFGHIJKLMNOPQRSTUVWXYZ".toList
def numbers : List Char := "0123456789".toList
def specialChars : List Char := "!@#$".toList
def defaultMinLength : Int := 8
def defaultMaxLength : Int := 15

/-! ## Errors, panics and outcomes -/

/-- A Go `error` value: the cause reported by the entropy source, or a cause
wrapped with a message by `errors.Wrap` / `errors.Wrapf`. -/
inductive GoError where
  | entropy : GoError
  | wrap : String → GoError → GoError
deriving DecidableEq, Repr

/-- The run-time panics the code can raise. -/
inductive Panic where
  /-- The value `rand.Int` panics with when its bound is not positive. -/
  | randIntNonPositive : Panic
  /-- The value `letters[index]` panics with when the index is out of range. -/
  | indexOutOfRange : Panic
deriving DecidableEq, Repr

/-- How a call ends: with a value, with a returned error, or with a panic. -/
inductive Outcome (α : Type) where
  | ok : α → Outcome α
  | error : GoError → Outcome α
  | panic : Panic → Outcome α
deriving DecidableEq, Repr

/-! ## The entropy source -/

/-- The oracle behind `rand.Reader`: the reads it delivers, in order. -/
abbrev Entropy := List (Option Nat)

/-- The read number `k` of the oracle: it fails or yields a number; past the
end of the list every read fails. -/
def readAt (rnd : Entropy) (k : Nat) : Option Nat :=
  rnd.getD k none

/-- The number of binary digits of `n`, with a bound on the number of halvings. -/
def bitLenAux : Nat → Nat → Nat
  | 0, _ => 0
  | fuel + 1, n => if n = 0 then 0 else bitLenAux fuel (n / 2) + 1

/-- The method `BitLen` of `big.Int` on a natural number: the number of its
binary digits, 0 for 0. -/
def bitLen (n : Nat) : Nat :=
  bitLenAux n n

/-- The loop of `rand.Int`: read, keep the low `bits` bits as the candidate,
return it when it is below `max`, read again otherwise; a read that fails ends
the loop with the reader's error. The second component counts the reads made. -/
def rejectionLoop (max : Int) (bits : Nat) : List (Option Nat) → Outcome Int × Nat
  | [] => (.error .entropy, 1)
  | none :: _ => (.error .entropy, 1)
  | some r :: rest =>
    if ((r % 2 ^ bits : Nat) : Int) < max then (.ok ((r % 2 ^ bits : Nat) : Int), 1)
    else ((rejectionLoop max bits rest).1, (rejectionLoop max bits rest).2 + 1)

/-- The library call `rand.Int(rand.Reader, max)`: it panics when `max <= 0`;
when `max - 1` has no binary digit (`max` is 1) it returns 0 without reading;
otherwise it reads until a candidate of `BitLen(max - 1)` bits is below `max`
and returns it, or returns the error of the read that failed. The second
component is the position in the oracle after the call. -/
def randInt (rnd : Entropy) (pos : Nat) (max : Int) : Outcome Int × Nat :=
  if max ≤ 0 then (.panic .randIntNonPositive, pos)
  else if bitLen (max - 1).toNat = 0 then (.ok 0, pos)
  else
    ((rejectionLoop max (bitLen (max - 1).toNat) (rnd.drop pos)).1,
      pos + (rejectionLoop max (bitLen (max - 1).toNat) (rnd.drop pos)).2)

/-! ## random.go -/

/-- The function `randBetween(min, max int) (int64, error)`. The difference
`max - min` is machine arithmetic; `n.Add(n, min)` is exact (big integers) and
`n.Int64()` keeps the low 64 bits. -/
def randBetween (rnd : Entropy) (pos : Nat) (min max : Int) : Outcome Int × Nat :=
  let diff := wrap64 (max - min)
  match randInt rnd pos diff with
  | (.ok n, pos1) => (.ok (wrap64 (n + min)), pos1)
  | (.error e, pos1) => (.error e, pos1)
  | (.panic k, pos1) => (.panic k, pos1)

/-- The function `randomNumber(maxLimit int) (int64, error)`. Here `maxLimit`
is the length of a string, so `int64(maxLimit)` and `index.Int64()` are exact. -/
def randomNumber (rnd : Entropy) (pos : Nat) (maxLimit : Int) : Outcome Int × Nat :=
  match randInt rnd pos maxLimit with
  | (.ok index, pos1) => (.ok index, pos1)
  | (.error e, pos1) => (.error e, pos1)
  | (.panic k, pos1) => (.panic k, pos1)

/-! ## generator.go -/

structure Conditions where
  MinUppercase : Int
  MinLowercase : Int
  MinNumber : Int
  MinSpecialChar : Int
  MinLength : Int
  MaxLength : Int
deriving DecidableEq, Repr

/-- The struct `PasswordGenerator`: `builder` is the content of the embedded
`strings.Builder`, `allowedSpecialChars` the nullable `*string`. -/
structure PasswordGenerator where
  condition : Conditions
  builder : List Char
  allowedSpecialChars : Option (List Char)
deriving DecidableEq, Repr

/-- The state a method call leaves behind, with its outcome: the generator
(whose builder the call may have written) and the position in the entropy oracle. -/
structure Res (α : Type) where
  out : Outcome α
  p : PasswordGenerator
  pos : Nat
deriving DecidableEq, Repr

/-- The constructor `NewGenerator(conditions, allowedSpecialChars)`. -/
def NewGenerator (conditions : Conditions) (allowedSpecialChars : Option (List Char)) :
    PasswordGenerator :=
  let c1 : Conditions :=
    if conditions.MinLength = 0 then { conditions with MinLength := defaultMinLength }
    else conditions
  let c2 : Conditions :=
    if c1.MaxLength = 0 then { c1 with MaxLength := defaultMaxLength } else c1
  let c3 : Conditions :=
    if c2.MinLength > c2.MaxLength then { c2 with MaxLength := wrap64 (c2.MinLength + 1) }
    else c2
  { condition := c3, builder := [], allowedSpecialChars := allowedSpecialChars }

/-- The method `getSpecialChars`. -/
def getSpecialChars (p : PasswordGenerator) : List Char :=
  match p.allowedSpecialChars with
  | some s => s
  | none => specialChars

/-- The method `addOneChar(letters)`: one index draw, then the byte at that
index is written to the builder. -/
def addOneChar (rnd : Entropy) (letters : List Char) (p : PasswordGenerator) (pos : Nat) :
    Res Unit :=
  match randomNumber rnd pos letters.length with
  | (.error e, pos1) => ⟨.error e, p, pos1⟩
  | (.panic k, pos1) => ⟨.panic k, p, pos1⟩
  | (.ok index, pos1) =>
    if index < 0 then ⟨.panic .indexOutOfRange, p, pos1⟩
    else
      match letters[index.toNat]? with
      | none => ⟨.panic .indexOutOfRange, p, pos1⟩
      | some c => ⟨.ok (), { p with builder := p.builder ++ [c] }, pos1⟩

/-- The inner loop of `satisfyMinimumCondition` for one character type:
`for i := 0; i < count; i++`, given its number of iterations. A failing draw is
wrapped with the message naming the character set. -/
def addMinimum (rnd : Entropy) (chars : List Char) :
    Nat → PasswordGenerator → Nat → Res Unit
  | 0, p, pos => ⟨.ok (), p, pos⟩
  | n + 1, p, pos =>
    let r := addOneChar rnd chars p pos
    match r.out with
    | .ok _ => addMinimum rnd chars n r.p r.pos
    | .error e =>
      ⟨.error (.wrap ("error adding minimum " ++ String.mk chars ++ " characters") e), r.p, r.pos⟩
    | .panic k => ⟨.panic k, r.p, r.pos⟩

/-- The outer loop of `satisfyMinimumCondition` over the table of character
types; a count that is zero or negative gives no iteration. -/
def satisfyLoop (rnd : Entropy) :
    List (List Char × Int) → PasswordGenerator → Nat → Res Unit
  | [], p, pos => ⟨.ok (), p, pos⟩
  | (chars, count) :: rest, p, pos =>
    let r := addMinimum rnd chars count.toNat p pos
    match r.out with
    | .ok _ => satisfyLoop rnd rest r.p r.pos
    | .error e => ⟨.error e, r.p, r.pos⟩
    | .panic k => ⟨.panic k, r.p, r.pos⟩

/-- The table `characterTypes` of `satisfyMinimumCondition`. -/
def characterTypes (p : PasswordGenerator) : List (List Char × Int) :=
  [ (uppercaseLetters, p.condition.MinUppercase),
    (lowercaseLetters, p.condition.MinLowercase),
    (numbers, p.condition.MinNumber),
    (getSpecialChars p, p.condition.MinSpecialChar) ]

/-- The method `satisfyMinimumCondition`. -/
def satisfyMinimumCondition (rnd : Entropy) (p : PasswordGenerator) (pos : Nat) : Res Unit :=
  satisfyLoop rnd (characterTypes p) p pos

/-- The padding loop of `Generate`: `for p.builder.Len() < int(passLength)`.
The first argument bounds the number of iterations. -/
def padLoop (rnd : Entropy) (eligibleChars : List Char) (passLength : Int) :
    Nat → PasswordGenerator → Nat → Res Unit
  | 0, p, pos => ⟨.ok (), p, pos⟩
  | fuel + 1, p, pos =>
    if (p.builder.length : Int) < passLength then
      let r := addOneChar rnd eligibleChars p pos
      match r.out with
      | .ok _ => padLoop rnd eligibleChars passLength fuel r.p r.pos
      | .error e => ⟨.error e, r.p, r.pos⟩
      | .panic k => ⟨.panic k, r.p, r.pos⟩
    else ⟨.ok (), p, pos⟩

/-- The method `Generate`. The padding loop runs with the distance from the
buffer length to `passLength` as its bound, which every run of the loop
respects since each iteration writes one byte (`padLoop_exit`). -/
def Generate (rnd : Entropy) (p : PasswordGenerator) (pos : Nat) : Res (List Char) :=
  let p0 : PasswordGenerator := { p with builder := [] }
  let r1 := satisfyMinimumCondition rnd p0 pos
  match r1.out with
  | .error e =>
    ⟨.error (.wrap ("error satisfying minimum condition of one CAP, one lowercase, " ++
        "one number, and one special char") e), r1.p, r1.pos⟩
  | .panic k => ⟨.panic k, r1.p, r1.pos⟩
  | .ok _ =>
    let specialCharList : List Char :=
      match r1.p.allowedSpecialChars with
      | some s => s
      | none => specialChars
    let eligibleChars := uppercaseLetters ++ lowercaseLetters ++ numbers ++ specialCharList
    match randBetween rnd r1.pos r1.p.condition.MinLength r1.p.condition.MaxLength with
    | (.error e, pos2) => ⟨.error (.wrap "error generating password length" e), r1.p, pos2⟩
    | (.panic k, pos2) => ⟨.panic k, r1.p, pos2⟩
    | (.ok passLength, pos2) =>
      let r3 := padLoop rnd eligibleChars passLength
        (passLength - (r1.p.builder.length : Int)).toNat r1.p pos2
      match r3.out with
      | .error e => ⟨.error (.wrap "error adding random character" e), r3.p, r3.pos⟩
      | .panic k => ⟨.panic k, r3.p, r3.pos⟩
      | .ok _ => ⟨.ok r3.p.builder, r3.p, r3.pos⟩

/-! ## Quantities the statements speak about -/

/-- The number of bytes the minimum-condition phase writes: the sum of the
minimum counts, a negative count giving none. -/
def minTotal (c : Conditions) : Nat :=
  c.MinUppercase.toNat + c.MinLowercase.toNat + c.MinNumber.toNat + c.MinSpecialChar.toNat

/-- The bytes of `blk` are, in order, the ones selected in `letters` by
successive index draws: the draws start at position `pos` of the oracle, each
one returns an index and the byte is the one at that index, and the last draw
leaves the oracle at position `pos1`. -/
def IsDrawn (rnd : Entropy) (letters : List Char) : Nat → List Char → Nat → Prop
  | pos, [], pos1 => pos1 = pos
  | pos, c :: blk, pos1 =>
    ∃ (index : Int) (mid : Nat),
      randomNumber rnd pos letters.length = (.ok index, mid) ∧
      0 ≤ index ∧ letters[index.toNat]? = some c ∧ IsDrawn rnd letters mid blk pos1

/-- The set the padding phase draws from: uppercase, lowercase, digits, then the
active special set. -/
def eligible (p : PasswordGenerator) : List Char :=
  uppercaseLetters ++ lowercaseLetters ++ numbers ++ getSpecialChars p

/-- The parts of a generated password: the four blocks of the minimum-condition
phase, the drawn target length and the padding, with the positions of the
oracle after each part. -/
structure Layout where
  upper : List Char
  lower : List Char
  digit : List Char
  special : List Char
  padding : List Char
  target : Int
  upperEnd : Nat
  lowerEnd : Nat
  digitEnd : Nat
  specialEnd : Nat
  targetEnd : Nat
  paddingEnd : Nat

/-- The password a layout stands for. -/
def Layout.password (L : Layout) : List Char :=
  L.upper ++ L.lower ++ L.digit ++ L.special ++ L.padding

/-- The layout `L` is the one that a run of `Generate` on `p`, started at
position `pos` of the oracle, produces: every block has the length its count
asks for and holds the bytes drawn for it, the minimum-condition phase ends
where the last block ends, the target is the length draw made there, and the
padding fills the buffer up to the target. -/
structure Layout.Explains (L : Layout) (rnd : Entropy) (p : PasswordGenerator) (pos : Nat) :
    Prop where
  upper_length : L.upper.length = p.condition.MinUppercase.toNat
  lower_length : L.lower.length = p.condition.MinLowercase.toNat
  digit_length : L.digit.length = p.condition.MinNumber.toNat
  special_length : L.special.length = p.condition.MinSpecialChar.toNat
  upper_drawn : IsDrawn rnd uppercaseLetters pos L.upper L.upperEnd
  lower_drawn : IsDrawn rnd lowercaseLetters L.upperEnd L.lower L.lowerEnd
  digit_drawn : IsDrawn rnd numbers L.lowerEnd L.digit L.digitEnd
  special_drawn : IsDrawn rnd (getSpecialChars p) L.digitEnd L.special L.specialEnd
  minimum_end : (satisfyMinimumCondition rnd { p with builder := [] } pos).pos = L.specialEnd
  target_drawn : randBetween rnd L.specialEnd p.condition.MinLength
    p.condition.MaxLength = (.ok L.target, L.targetEnd)
  padding_length : L.padding.length = (L.target - (minTotal p.condition : Int)).toNat
  padding_drawn : IsDrawn rnd (eligible p) L.targetEnd L.padding L.paddingEnd

/-- The number of bytes of `pw` that belong to the character set `set`. -/
def countIn (set pw : List Char) : Nat :=
  pw.countP (fun c => decide (c ∈ set))

/-- The oracle that delivers the listed numbers in turn and then fails. -/
def tape (xs : List Nat) : Entropy :=
  xs.map some

/-- The oracle that delivers `n` times the number 0 and then fails. -/
def zeros (n : Nat) : Entropy :=
  List.replicate n (some 0)

/-! ## Concrete inputs for the worked examples -/

/-- The generator built from one of each class and unset lengths. -/
def demoGenerator : PasswordGenerator := NewGenerator ⟨1, 1, 1, 1, 0, 0⟩ none

/-- Its reads: 30 is rejected by the uppercase draw (bound 26), which takes 3;
then the three other block draws, the length draw (8 + 2) and six padding draws. -/
def demoEntropy : Entropy := tape [30, 3, 4, 5, 1, 2, 30, 40, 62, 65, 62, 62]

/-- The password `Generate` returns for `demoGenerator` on `demoEntropy`. -/
def demoPassword : List Char := "De5@eo!$!!".toList

/-- The generator of `demoGenerator` with the override `%&`. -/
def overrideGenerator : PasswordGenerator := NewGenerator ⟨1, 1, 1, 1, 0, 0⟩ (some "%&".toList)

/-- The password `Generate` returns for `overrideGenerator` on `demoEntropy`. -/
def overridePassword : List Char := "De5&eo%B%%".toList

/-- The first result of `Generate`, the `*string`: `nil` unless the call ended
with a password. -/
def Res.password (r : Res (List Char)) : Option (List Char) :=
  match r.out with
  | .ok pw => some pw
  | _ => none

/-- The second result of `Generate`, the `error`: `nil` unless the call
returned an error. -/
def Res.err (r : Res (List Char)) : Option GoError :=
  match r.out with
  | .error e => some e
  | _ => none

/-- An oracle whose read number 2 fails and whose other reads yield 0. -/
def failingEntropy : Entropy := [some 0, some 0, none, some 0, some 0]

/-! ## Accounting for the reads of a run -/

/-- Every read of the oracle from `a` up to, not including, `b` succeeds. -/
def DrawsOk (rnd : Entropy) (a b : Nat) : Prop :=
  ∀ j : Nat, a ≤ j → j < b → readAt rnd j ≠ none

/-- A call started at position `pos` that ended at position `pos1` with outcome
`out` made its reads in order: when it returned an error, the last read it
made is the one that failed and every earlier one succeeded; otherwise all
its reads succeeded. -/
def Accounted {α : Type} (rnd : Entropy) (pos : Nat) (out : Outcome α) (pos1 : Nat) : Prop :=
  pos ≤ pos1 ∧
    match out with
    | .error _ => pos < pos1 ∧ DrawsOk rnd pos (pos1 - 1) ∧ readAt rnd (pos1 - 1) = none
    | _ => DrawsOk rnd pos pos1

/-- The message `satisfyMinimumCondition` wraps a failing draw with. -/
def minimumMessage (chars : List Char) : String :=
  "error adding minimum " ++ String.mk chars ++ " characters"

/-- The message `Generate` wraps a failure of the minimum-condition phase with. -/
def satisfyMessage : String :=
  "error satisfying minimum condition of one CAP, one lowercase, " ++
    "one number, and one special char"

/-- The message `Generate` wraps a failure of the length draw with. -/
def lengthMessage : String := "error generating password length"

/-- The message `Generate` wraps a failure of the padding phase with. -/
def paddingMessage : String := "error adding random character"

/-- What every step of a run guarantees about the state it leaves: its reads
are accounted for, and it left the stored conditions and the override as they
were. -/
structure Facts {α : Type} (rnd : Entropy) (p : PasswordGenerator) (pos : Nat)
    (r : Res α) : Prop where
  accounted : Accounted rnd pos r.out r.pos
  condition : r.p.condition = p.condition
  special : r.p.allowedSpecialChars = p.allowedSpecialChars

/-- The position of the oracle at which the minimum-condition phase of
`Generate` ends. -/
def minimumEnd (rnd : Entropy) (p : PasswordGenerator) (pos : Nat) : Nat :=
  (satisfyMinimumCondition rnd { p with builder := [] } pos).pos

/-- The position of the oracle after the length draw that `Generate` makes when
the minimum-condition phase has ended normally. -/
def lengthEnd (rnd : Entropy) (p : PasswordGenerator) (pos : Nat) : Nat :=
  (randBetween rnd (minimumEnd rnd p pos) p.condition.MinLength p.condition.MaxLength).2

/-! ## The copy under `src/`: constants, utils/random and generator

The packages `src/constants`, `src/utils/random` and `src/generator` are
embedded function by function. The structs `Conditions` and `PasswordGenerator`
of `src/generator` have the fields of the root package, so the same types are
used for both. -/

namespace Src

def LowercaseLetters : List Char := "abcdefghijklmnopqrstuvwxyz".toList
def UppercaseLetters : List Char := "ABCDEFGHIJKLMNOPQRSTUVWXYZ".toList
def Numbers : List Char := "0123456789".toList
def SpecialChars : List Char := "!@#$".toList
def DefaultMinLength : Int := 8
def DefaultMaxLength : Int := 15

/-- The function `RandBetween(min, max int) (int64, error)` of `src/utils/random`. -/
def RandBetween (rnd : Entropy) (pos : Nat) (min max : Int) : Outcome Int × Nat :=
  let diff := wrap64 (max - min)
  match randInt rnd pos diff with
  | (.ok n, pos1) => (.ok (wrap64 (n + min)), pos1)
  | (.error e, pos1) => (.error e, pos1)
  | (.panic k, pos1) => (.panic k, pos1)

/-- The function `RandomNumber(maxLimit int) (int64, error)` of `src/utils/random`. -/
def RandomNumber (rnd : Entropy) (pos : Nat) (maxLimit : Int) : Outcome Int × Nat :=
  match randInt rnd pos maxLimit with
  | (.ok index, pos1) => (.ok index, pos1)
  | (.error e, pos1) => (.error e, pos1)
  | (.panic k, pos1) => (.panic k, pos1)

/-- The constructor `NewGenerator` of `src/generator`: it defaults MinLength
only, and coerces MaxLength to MinLength itself. -/
def NewGenerator (conditions : Conditions) (allowedSpecialChars : Option (List Char)) :
    PasswordGenerator :=
  let c1 : Conditions :=
    if conditions.MinLength = 0 then { conditions with MinLength := DefaultMinLength }
    else conditions
  let c2 : Conditions :=
    if c1.MinLength > c1.MaxLength then { c1 with MaxLength := c1.MinLength } else c1
  { condition := c2, builder := [], allowedSpecialChars := allowedSpecialChars }

/-- The method `getSpecialChars` of `src/generator`. -/
def getSpecialChars (p : PasswordGenerator) : List Char :=
  match p.allowedSpecialChars with
  | some s => s
  | none => SpecialChars

/-- The method `addOneChar` of `src/generator`. -/
def addOneChar (rnd : Entropy) (letters : List Char) (p : PasswordGenerator) (pos : Nat) :
    Res Unit :=
  match RandomNumber rnd pos letters.length with
  | (.error e, pos1) => ⟨.error e, p, pos1⟩
  | (.panic k, pos1) => ⟨.panic k, p, pos1⟩
  | (.ok index, pos1) =>
    if index < 0 then ⟨.panic .indexOutOfRange, p, pos1⟩
    else
      match letters[index.toNat]? with
      | none => ⟨.panic .indexOutOfRange, p, pos1⟩
      | some c => ⟨.ok (), { p with builder := p.builder ++ [c] }, pos1⟩

/-- The inner loop of `satisfyMinimumCondition` of `src/generator`. -/
def addMinimum (rnd : Entropy) (chars : List Char) :
    Nat → PasswordGenerator → Nat → Res Unit
  | 0, p, pos => ⟨.ok (), p, pos⟩
  | n + 1, p, pos =>
    let r := addOneChar rnd chars p pos
    match r.out with
    | .ok _ => addMinimum rnd chars n r.p r.pos
    | .error e =>
      ⟨.error (.wrap ("error adding minimum " ++ String.mk chars ++ " characters") e), r.p, r.pos⟩
    | .panic k => ⟨.panic k, r.p, r.pos⟩

/-- The outer loop of `satisfyMinimumCondition` of `src/generator`. -/
def satisfyLoop (rnd : Entropy) :
    List (List Char × Int) → PasswordGenerator → Nat → Res Unit
  | [], p, pos => ⟨.ok (), p, pos⟩
  | (chars, count) :: rest, p, pos =>
    let r := addMinimum rnd chars count.toNat p pos
    match r.out with
    | .ok _ => satisfyLoop rnd rest r.p r.pos
    | .error e => ⟨.error e, r.p, r.pos⟩
    | .panic k => ⟨.panic k, r.p, r.pos⟩

/-- The table `characterTypes` of `src/generator`. -/
def characterTypes (p : PasswordGenerator) : List (List Char × Int) :=
  [ (UppercaseLetters, p.condition.MinUppercase),
    (LowercaseLetters, p.condition.MinLowercase),
    (Numbers, p.condition.MinNumber),
    (getSpecialChars p, p.condition.MinSpecialChar) ]

/-- The method `satisfyMinimumCondition` of `src/generator`. -/
def satisfyMinimumCondition (rnd : Entropy) (p : PasswordGenerator) (pos : Nat) : Res Unit :=
  satisfyLoop rnd (characterTypes p) p pos

/-- The padding loop of `Generate` of `src/generator`. -/
def padLoop (rnd : Entropy) (eligibleChars : List Char) (passLength : Int) :
    Nat → PasswordGenerator → Nat → Res Unit
  | 0, p, pos => ⟨.ok (), p, pos⟩
  | fuel + 1, p, pos =>
    if (p.builder.length : Int) < passLength then
      let r := addOneChar rnd eligibleChars p pos
      match r.out with
      | .ok _ => padLoop rnd eligibleChars passLength fuel r.p r.pos
      | .error e => ⟨.error e, r.p, r.pos⟩
      | .panic k => ⟨.panic k, r.p, r.pos⟩
    else ⟨.ok (), p, pos⟩

/-- The method `Generate` of `src/generator`. -/
def Generate (rnd : Entropy) (p : PasswordGenerator) (pos : Nat) : Res (List Char) :=
  let p0 : PasswordGenerator := { p with builder := [] }
  let r1 := satisfyMinimumCondition rnd p0 pos
  match r1.out with
  | .error e =>
    ⟨.error (.wrap ("error satisfying minimum condition of one CAP, one lowercase, " ++
        "one number, and one special char") e), r1.p, r1.pos⟩
  | .panic k => ⟨.panic k, r1.p, r1.pos⟩
  | .ok _ =>
    let specialCharList : List Char :=
      match r1.p.allowedSpecialChars with
      | some s => s
      | none => SpecialChars
    let eligibleChars := UppercaseLetters ++ LowercaseLetters ++ Numbers ++ specialCharList
    match RandBetween rnd r1.pos r1.p.condition.MinLength r1.p.condition.MaxLength with
    | (.error e, pos2) => ⟨.error (.wrap "error generating password length" e), r1.p, pos2⟩
    | (.panic k, pos2) => ⟨.panic k, r1.p, pos2⟩
    | (.ok passLength, pos2) =>
      let r3 := padLoop rnd eligibleChars passLength
        (passLength - (r1.p.builder.length : Int)).toNat r1.p pos2
      match r3.out with
      | .error e => ⟨.error (.wrap "error adding random character" e), r3.p, r3.pos⟩
      | .panic k => ⟨.panic k, r3.p, r3.pos⟩
      | .ok _ => ⟨.ok r3.p.builder, r3.p, r3.pos⟩

end Src

/-! ## NewGenerator -/

theorem NewGenerator_condition (c : Conditions) (o : Option (List Char)) :
    (NewGenerator c o).condition =
      { c with
        MinLength := if c.MinLength = 0 then defaultMinLength else c.MinLength
        MaxLength :=
          if (if c.MinLength = 0 then defaultMinLength else c.MinLength) >
              (if c.MaxLength = 0 then defaultMaxLength else c.MaxLength)
          then wrap64 ((if c.MinLength = 0 then defaultMinLength else c.MinLength) + 1)
          else (if c.MaxLength = 0 then defaultMaxLength else c.MaxLength) } := by
  unfold NewGenerator
  by_cases h1 : c.MinLength = 0 <;> by_cases h2 : c.MaxLength = 0 <;> simp [h1, h2] <;>
    split <;> simp_all

/-- C1: the effective MinLength of the generator built by NewGenerator is 8 when
the given MinLength is 0, and the given MinLength otherwise. -/
theorem NewGenerator_minLength (c : Conditions) (o : Option (List Char)) :
    (NewGenerator c o).condition.MinLength = if c.MinLength = 0 then 8 else c.MinLength := by
  rw [NewGenerator_condition]; rfl

/-! ## The random source -/

theorem wrap64_of_inInt64 {x : Int} (h : inInt64 x) : wrap64 x = x := by
  unfold inInt64 at h
  unfold wrap64
  omega

theorem wrap64_inInt64 (x : Int) : inInt64 (wrap64 x) := by
  unfold inInt64 wrap64
  omega

theorem lt_two_pow_bitLenAux : ∀ (fuel n : Nat), n ≤ fuel → n < 2 ^ bitLenAux fuel n := by
  intro fuel
  induction fuel with
  | zero =>
    intro n hn
    have : n = 0 := by omega
    subst this
    simp [bitLenAux]
  | succ fuel ih =>
    intro n hn
    rw [bitLenAux]
    by_cases h0 : n = 0
    · simp [h0]
    · simp only [h0, if_false]
      have hhalf : n / 2 ≤ fuel := by omega
      have := ih (n / 2) hhalf
      rw [Nat.pow_succ]
      omega

theorem lt_two_pow_bitLen (n : Nat) : n < 2 ^ bitLen n :=
  lt_two_pow_bitLenAux n n (le_refl n)

theorem bitLen_eq_zero {n : Nat} : bitLen n = 0 ↔ n = 0 := by
  constructor
  · intro h
    by_contra hne
    obtain ⟨m, hm⟩ := Nat.exists_eq_succ_of_ne_zero hne
    subst hm
    simp [bitLen, bitLenAux] at h
  · intro h
    subst h
    rfl

theorem readAt_drop (rnd : Entropy) (pos j : Nat) :
    (rnd.drop pos).getD j none = readAt rnd (pos + j) := by
  simp only [readAt, List.getD_eq_getElem?_getD, List.getElem?_drop]

/-- The loop of `rand.Int` on the reads `l`: it makes at least one read, every
read before the last succeeded, a returned value is the candidate of the last
read and lies in `[0, max)`, a returned error is the failure of the last read,
and the loop does not panic. -/
theorem rejectionLoop_facts (max : Int) (bits : Nat) :
    ∀ l : List (Option Nat),
      1 ≤ (rejectionLoop max bits l).2 ∧
      (∀ j, j + 1 < (rejectionLoop max bits l).2 → l.getD j none ≠ none) ∧
      (∀ v, (rejectionLoop max bits l).1 = .ok v →
        0 ≤ v ∧ v < max ∧
          ∃ r : Nat, l.getD ((rejectionLoop max bits l).2 - 1) none = some r ∧
            v = ((r % 2 ^ bits : Nat) : Int)) ∧
      (∀ e, (rejectionLoop max bits l).1 = .error e →
        e = .entropy ∧ l.getD ((rejectionLoop max bits l).2 - 1) none = none) ∧
      (∀ k, (rejectionLoop max bits l).1 ≠ .panic k) := by
  intro l
  induction l with
  | nil =>
    refine ⟨by simp [rejectionLoop], ?_, ?_, ?_, ?_⟩
    · intro j hj; simp [rejectionLoop] at hj
    · intro v hv; simp [rejectionLoop] at hv
    · intro e he
      simp only [rejectionLoop, Outcome.error.injEq] at he
      exact ⟨he.symm, rfl⟩
    · intro k hk; simp [rejectionLoop] at hk
  | cons x rest ih =>
    cases x with
    | none =>
      refine ⟨by simp [rejectionLoop], ?_, ?_, ?_, ?_⟩
      · intro j hj; simp [rejectionLoop] at hj
      · intro v hv; simp [rejectionLoop] at hv
      · intro e he
        simp only [rejectionLoop, Outcome.error.injEq] at he
        exact ⟨he.symm, rfl⟩
      · intro k hk; simp [rejectionLoop] at hk
    | some r =>
      by_cases hlt : ((r % 2 ^ bits : Nat) : Int) < max
      · have hres : rejectionLoop max bits (some r :: rest) =
            (.ok ((r % 2 ^ bits : Nat) : Int), 1) := by
          simp only [rejectionLoop, hlt, if_true]
        rw [hres]
        refine ⟨le_refl _, ?_, ?_, ?_, ?_⟩
        · intro j hj; simp at hj
        · intro v hv
          simp only [Outcome.ok.injEq] at hv
          subst hv
          exact ⟨Int.ofNat_nonneg _, hlt, r, rfl, rfl⟩
        · intro e he; simp at he
        · intro k hk; simp at hk
      · have hres : rejectionLoop max bits (some r :: rest) =
            ((rejectionLoop max bits rest).1, (rejectionLoop max bits rest).2 + 1) := by
          simp only [rejectionLoop, hlt, if_false]
        obtain ⟨h1, h2, h3, h4, h5⟩ := ih
        rw [hres]
        refine ⟨by simp, ?_, ?_, ?_, h5⟩
        · intro j hj
          cases j with
          | zero => simp
          | succ i =>
            simp only [List.getD_cons_succ]
            exact h2 i (by simpa using hj)
        · intro v hv
          obtain ⟨hv0, hv1, r1, hr1, hvr⟩ := h3 v hv
          refine ⟨hv0, hv1, r1, ?_, hvr⟩
          have hpred : (rejectionLoop max bits rest).2 + 1 - 1 =
              ((rejectionLoop max bits rest).2 - 1) + 1 := by omega
          simp only [hpred, List.getD_cons_succ]
          exact hr1
        · intro e he
          obtain ⟨he0, he1⟩ := h4 e he
          refine ⟨he0, ?_⟩
          have hpred : (rejectionLoop max bits rest).2 + 1 - 1 =
              ((rejectionLoop max bits rest).2 - 1) + 1 := by omega
          simp only [hpred, List.getD_cons_succ]
          exact he1

theorem DrawsOk.empty (rnd : Entropy) (a : Nat) : DrawsOk rnd a a := by
  intro j h1 h2; omega

theorem DrawsOk.append {rnd : Entropy} {a b c : Nat} (h1 : DrawsOk rnd a b)
    (h2 : DrawsOk rnd b c) : DrawsOk rnd a c := by
  intro j ha hc
  by_cases hb : j < b
  · exact h1 j ha hb
  · exact h2 j (by omega) hc

/-- Accounting composes: a step that ended normally, followed by a second step. -/
theorem Accounted.seq {α β : Type} {rnd : Entropy} {pos pos1 pos2 : Nat} {a : α}
    {out : Outcome β} (h1 : Accounted rnd pos (Outcome.ok a) pos1)
    (h2 : Accounted rnd pos1 out pos2) : Accounted rnd pos out pos2 := by
  obtain ⟨hle1, hd1⟩ := h1
  obtain ⟨hle2, hd2⟩ := h2
  refine ⟨by omega, ?_⟩
  cases out with
  | ok b => exact hd1.append hd2
  | panic k => exact hd1.append hd2
  | error e =>
    obtain ⟨hlt, hd, hn⟩ := hd2
    exact ⟨by omega, hd1.append hd, hn⟩

/-- Every outcome of `rand.Int`: its reads are accounted for, a returned value
lies in `[0, max)`, a returned error is the reader's and needs a bound above 1,
and it panics exactly on a bound that is not positive, before any read. -/
theorem randInt_facts (rnd : Entropy) (pos : Nat) (max : Int) :
    Accounted rnd pos (randInt rnd pos max).1 (randInt rnd pos max).2 ∧
    (∀ v, (randInt rnd pos max).1 = .ok v → 0 < max ∧ 0 ≤ v ∧ v < max) ∧
    (∀ e, (randInt rnd pos max).1 = .error e → e = .entropy ∧ 1 < max) ∧
    (∀ k, (randInt rnd pos max).1 = .panic k →
      k = .randIntNonPositive ∧ max ≤ 0 ∧ (randInt rnd pos max).2 = pos) := by
  unfold randInt
  by_cases hmax : max ≤ 0
  · simp only [hmax, if_true]
    refine ⟨⟨le_refl _, DrawsOk.empty _ _⟩, ?_, ?_, ?_⟩
    · intro v hv; simp at hv
    · intro e he; simp at he
    · intro k hk
      simp only [Outcome.panic.injEq] at hk
      exact ⟨hk.symm, by trivial, by trivial⟩
  · simp only [hmax, if_false]
    by_cases hbits : bitLen (max - 1).toNat = 0
    · simp only [hbits, if_true]
      have hone : max = 1 := by
        have := bitLen_eq_zero.mp hbits
        omega
      refine ⟨⟨le_refl _, DrawsOk.empty _ _⟩, ?_, ?_, ?_⟩
      · intro v hv
        simp only [Outcome.ok.injEq] at hv
        omega
      · intro e he; simp at he
      · intro k hk; simp at hk
    · simp only [hbits, if_false]
      have hgt : 1 < max := by
        have : (max - 1).toNat ≠ 0 := fun h => hbits (bitLen_eq_zero.mpr h)
        omega
      obtain ⟨h1, h2, h3, h4, h5⟩ :=
        rejectionLoop_facts max (bitLen (max - 1).toNat) (rnd.drop pos)
      generalize rejectionLoop max (bitLen (max - 1).toNat) (rnd.drop pos) = res
        at h1 h2 h3 h4 h5
      obtain ⟨o, n⟩ := res
      simp only at h1 h2 h3 h4 h5 ⊢
      have hprev : DrawsOk rnd pos (pos + n - 1) := by
        intro j hj1 hj2
        have := h2 (j - pos) (by omega)
        rw [readAt_drop] at this
        have hj : pos + (j - pos) = j := by omega
        rw [hj] at this
        exact this
      have hlast : (List.drop pos rnd).getD (n - 1) none = readAt rnd (pos + n - 1) := by
        rw [readAt_drop]; congr 1; omega
      refine ⟨⟨by omega, ?_⟩, ?_, ?_, ?_⟩
      · cases o with
        | ok v =>
          obtain ⟨_, _, r, hr, _⟩ := h3 v rfl
          intro j hj1 hj2
          by_cases hj : j < pos + n - 1
          · exact hprev j hj1 hj
          · have : j = pos + n - 1 := by omega
            subst this
            rw [← hlast, hr]; simp
        | panic k => exact absurd rfl (h5 k)
        | error e =>
          obtain ⟨_, hn⟩ := h4 e rfl
          exact ⟨by omega, hprev, by rw [← hlast]; exact hn⟩
      · intro v hv
        obtain ⟨hv0, hv1, _⟩ := h3 v hv
        exact ⟨by omega, hv0, hv1⟩
      · intro e he
        exact ⟨(h4 e he).1, hgt⟩
      · intro k hk
        exact absurd hk (h5 k)

theorem randomNumber_eq_randInt (rnd : Entropy) (pos : Nat) (maxLimit : Int) :
    randomNumber rnd pos maxLimit = randInt rnd pos maxLimit := by
  unfold randomNumber
  generalize randInt rnd pos maxLimit = res
  obtain ⟨o, q⟩ := res
  cases o <;> rfl

theorem randomNumber_facts (rnd : Entropy) (pos : Nat) (maxLimit : Int) :
    Accounted rnd pos (randomNumber rnd pos maxLimit).1 (randomNumber rnd pos maxLimit).2 ∧
    (∀ v, (randomNumber rnd pos maxLimit).1 = .ok v → 0 < maxLimit ∧ 0 ≤ v ∧ v < maxLimit) ∧
    (∀ e, (randomNumber rnd pos maxLimit).1 = .error e → e = .entropy ∧ 1 < maxLimit) ∧
    (∀ k, (randomNumber rnd pos maxLimit).1 = .panic k →
      k = .randIntNonPositive ∧ maxLimit ≤ 0 ∧ (randomNumber rnd pos maxLimit).2 = pos) := by
  rw [randomNumber_eq_randInt]
  exact randInt_facts rnd pos maxLimit

/-- Every outcome of `randBetween`: its reads are accounted for, a returned
value is `min + n` reduced to 64 bits for a draw `n` below the machine
difference `max - min`, a returned error is the reader's, and it panics exactly
when that difference is not positive, before any read. -/
theorem randBetween_facts (rnd : Entropy) (pos : Nat) (min max : Int) :
    Accounted rnd pos (randBetween rnd pos min max).1 (randBetween rnd pos min max).2 ∧
    (∀ t, (randBetween rnd pos min max).1 = .ok t →
      0 < wrap64 (max - min) ∧
        ∃ n : Int, 0 ≤ n ∧ n < wrap64 (max - min) ∧ t = wrap64 (n + min)) ∧
    (∀ e, (randBetween rnd pos min max).1 = .error e → e = .entropy) ∧
    (∀ k, (randBetween rnd pos min max).1 = .panic k →
      k = .randIntNonPositive ∧ wrap64 (max - min) ≤ 0 ∧
        (randBetween rnd pos min max).2 = pos) := by
  obtain ⟨hacc, hok, herr, hpanic⟩ := randInt_facts rnd pos (wrap64 (max - min))
  unfold randBetween
  simp only
  generalize randInt rnd pos (wrap64 (max - min)) = res at hacc hok herr hpanic
  obtain ⟨o, q⟩ := res
  cases o with
  | ok n =>
    simp only at hacc hok ⊢
    refine ⟨hacc, ?_, ?_, ?_⟩
    · intro t ht
      simp only [Outcome.ok.injEq] at ht
      obtain ⟨h0, h1, h2⟩ := hok n rfl
      exact ⟨h0, n, h1, h2, ht.symm⟩
    · intro e he; simp at he
    · intro k hk; simp at hk
  | error e =>
    simp only at hacc herr ⊢
    refine ⟨hacc, ?_, ?_, ?_⟩
    · intro t ht; simp at ht
    · intro e1 he1
      simp only [Outcome.error.injEq] at he1
      rw [← he1]; exact (herr e rfl).1
    · intro k hk; simp at hk
  | panic k =>
    simp only at hacc hpanic ⊢
    refine ⟨hacc, ?_, ?_, ?_⟩
    · intro t ht; simp at ht
    · intro e he; simp at he
    · intro k1 hk1
      simp only [Outcome.panic.injEq] at hk1
      rw [← hk1]; exact hpanic k rfl

theorem randBetween_ok {rnd : Entropy} {pos : Nat} {min max t : Int} {pos1 : Nat}
    (h : randBetween rnd pos min max = (.ok t, pos1)) :
    0 < wrap64 (max - min) ∧
      ∃ n : Int, 0 ≤ n ∧ n < wrap64 (max - min) ∧ t = wrap64 (n + min) := by
  have hf := (randBetween_facts rnd pos min max).2.1 t
  rw [h] at hf
  exact hf rfl

/-! ## addOneChar and the loops -/

theorem addOneChar_cases (rnd : Entropy) (letters : List Char) (p : PasswordGenerator)
    (pos : Nat) :
    (letters = [] ∧
      addOneChar rnd letters p pos = ⟨.panic .randIntNonPositive, p, pos⟩) ∨
    (letters ≠ [] ∧ ∃ pos1,
      addOneChar rnd letters p pos = ⟨.error .entropy, p, pos1⟩) ∨
    (letters ≠ [] ∧ ∃ (index : Int) (pos1 : Nat) (c : Char),
      randomNumber rnd pos letters.length = (.ok index, pos1) ∧ 0 ≤ index ∧
      letters[index.toNat]? = some c ∧
      addOneChar rnd letters p pos =
        ⟨.ok (), { p with builder := p.builder ++ [c] }, pos1⟩) := by
  obtain ⟨_, hok, herr, hpanic⟩ := randomNumber_facts rnd pos letters.length
  unfold addOneChar
  generalize hres : randomNumber rnd pos letters.length = res at hok herr hpanic
  obtain ⟨o, q⟩ := res
  cases o with
  | ok index =>
    obtain ⟨hlen, h0, h1⟩ := hok index rfl
    have hne : letters ≠ [] := by
      intro h; subst h; simp at hlen
    have hlt : index.toNat < letters.length := by omega
    right; right
    refine ⟨hne, index, q, letters[index.toNat], rfl, h0, List.getElem?_eq_getElem hlt, ?_⟩
    have hnn : ¬ index < 0 := by omega
    simp only [hnn, if_false, List.getElem?_eq_getElem hlt]
  | error e =>
    obtain ⟨he, hlen⟩ := herr e rfl
    have hne : letters ≠ [] := by
      intro h; subst h; simp at hlen
    right; left
    exact ⟨hne, q, by simp only [he]⟩
  | panic k =>
    obtain ⟨hk, hlen, hq⟩ := hpanic k rfl
    simp only at hq
    have hnil : letters = [] := by
      have : letters.length = 0 := by omega
      exact List.length_eq_zero.mp this
    left
    exact ⟨hnil, by simp only [hk, hq]⟩

theorem addOneChar_accounted (rnd : Entropy) (letters : List Char) (p : PasswordGenerator)
    (pos : Nat) :
    Accounted rnd pos (addOneChar rnd letters p pos).out (addOneChar rnd letters p pos).pos := by
  obtain ⟨hacc, hok, _, _⟩ := randomNumber_facts rnd pos letters.length
  unfold addOneChar
  generalize randomNumber rnd pos letters.length = res at hacc hok
  obtain ⟨o, q⟩ := res
  cases o with
  | ok index =>
    obtain ⟨hlen, h0, h1⟩ := hok index rfl
    have hlt : index.toNat < letters.length := by omega
    have hnn : ¬ index < 0 := by omega
    simp only [hnn, if_false, List.getElem?_eq_getElem hlt]
    exact hacc
  | error e => exact hacc
  | panic k => exact hacc

theorem IsDrawn.nil (rnd : Entropy) (letters : List Char) (pos : Nat) :
    IsDrawn rnd letters pos [] pos := by
  simp [IsDrawn]

theorem IsDrawn.mem {rnd : Entropy} {letters : List Char} :
    ∀ {blk : List Char} {pos pos1 : Nat}, IsDrawn rnd letters pos blk pos1 →
      ∀ c ∈ blk, c ∈ letters := by
  intro blk
  induction blk with
  | nil => intro pos pos1 _ c hc; simp at hc
  | cons b rest ih =>
    intro pos pos1 h c hc
    simp only [IsDrawn] at h
    obtain ⟨index, mid, _, _, hget, hrest⟩ := h
    rcases List.mem_cons.mp hc with hc | hc
    · subst hc; exact List.getElem?_mem hget
    · exact ih hrest c hc

theorem IsDrawn.cons {rnd : Entropy} {letters : List Char} {pos mid pos1 : Nat} {index : Int}
    {c : Char} {blk : List Char}
    (hdraw : randomNumber rnd pos letters.length = (.ok index, mid)) (h0 : 0 ≤ index)
    (hget : letters[index.toNat]? = some c) (hrest : IsDrawn rnd letters mid blk pos1) :
    IsDrawn rnd letters pos (c :: blk) pos1 := by
  simp only [IsDrawn]
  exact ⟨index, mid, hdraw, h0, hget, hrest⟩

theorem addMinimum_ok {rnd : Entropy} {chars : List Char} :
    ∀ (n : Nat) (p : PasswordGenerator) (pos : Nat) {u : Unit},
      (addMinimum rnd chars n p pos).out = .ok u →
      ∃ (blk : List Char) (pos1 : Nat), blk.length = n ∧ IsDrawn rnd chars pos blk pos1 ∧
        addMinimum rnd chars n p pos =
          ⟨.ok (), { p with builder := p.builder ++ blk }, pos1⟩ := by
  intro n
  induction n with
  | zero =>
    intro p pos u _
    exact ⟨[], pos, rfl, IsDrawn.nil _ _ _, by simp [addMinimum]⟩
  | succ n ih =>
    intro p pos u h
    rw [addMinimum] at h ⊢
    rcases addOneChar_cases rnd chars p pos with
      ⟨_, heq⟩ | ⟨_, q, heq⟩ | ⟨_, index, mid, c, hdraw, h0, hget, heq⟩
    · rw [heq] at h; simp at h
    · rw [heq] at h; simp at h
    · rw [heq] at h ⊢
      simp only at h ⊢
      obtain ⟨blk, pos1, hlen, hdr, hres⟩ := ih _ _ h
      refine ⟨c :: blk, pos1, by simp [hlen], IsDrawn.cons hdraw h0 hget hdr, ?_⟩
      rw [hres]
      simp

theorem padLoop_ok {rnd : Entropy} {eligibleChars : List Char} {passLength : Int} :
    ∀ (fuel : Nat) (p : PasswordGenerator) (pos : Nat) {u : Unit},
      (padLoop rnd eligibleChars passLength fuel p pos).out = .ok u →
      ∃ (pad : List Char) (pos1 : Nat), IsDrawn rnd eligibleChars pos pad pos1 ∧
        padLoop rnd eligibleChars passLength fuel p pos =
          ⟨.ok (), { p with builder := p.builder ++ pad }, pos1⟩ ∧
        ((passLength - (p.builder.length : Int)).toNat ≤ fuel →
          pad.length = (passLength - (p.builder.length : Int)).toNat) := by
  intro fuel
  induction fuel with
  | zero =>
    intro p pos u _
    refine ⟨[], pos, IsDrawn.nil _ _ _, by simp [padLoop], ?_⟩
    intro hle; simp at hle ⊢; omega
  | succ fuel ih =>
    intro p pos u h
    rw [padLoop] at h ⊢
    by_cases hlt : (p.builder.length : Int) < passLength
    · simp only [hlt, if_true] at h ⊢
      rcases addOneChar_cases rnd eligibleChars p pos with
        ⟨_, heq⟩ | ⟨_, q, heq⟩ | ⟨_, index, mid, c, hdraw, h0, hget, heq⟩
      · rw [heq] at h; simp at h
      · rw [heq] at h; simp at h
      · rw [heq] at h ⊢
        simp only at h ⊢
        obtain ⟨pad, pos1, hdr, hres, hlen⟩ := ih _ _ h
        refine ⟨c :: pad, pos1, IsDrawn.cons hdraw h0 hget hdr, ?_, ?_⟩
        · rw [hres]
          simp
        · intro hle
          have hb : ((p.builder ++ [c]).length : Int) = (p.builder.length : Int) + 1 := by simp
          simp only [hb] at hlen
          have h2 := hlen (by omega)
          rw [List.length_cons, h2]; omega
    · simp only [hlt, if_false] at h ⊢
      refine ⟨[], pos, IsDrawn.nil _ _ _, by simp, ?_⟩
      intro _
      have hnp : passLength - (p.builder.length : Int) ≤ 0 := by omega
      rw [Int.toNat_of_nonpos hnp]; rfl

/-- The bound `Generate` gives the padding loop is never what ends it: started
with at least the distance to `passLength`, a loop that ends normally has left
the loop condition false. -/
theorem padLoop_exit {rnd : Entropy} {eligibleChars : List Char} {passLength : Int}
    {fuel : Nat} {p : PasswordGenerator} {pos : Nat} {u : Unit}
    (hfuel : (passLength - (p.builder.length : Int)).toNat ≤ fuel)
    (h : (padLoop rnd eligibleChars passLength fuel p pos).out = .ok u) :
    ¬ (((padLoop rnd eligibleChars passLength fuel p pos).p.builder.length : Int) <
        passLength) := by
  obtain ⟨pad, pos1, _, hres, hlen⟩ := padLoop_ok _ _ _ h
  have hl := hlen hfuel
  rw [hres]
  simp only [List.length_append]
  omega

theorem satisfyLoop_cons_ok {rnd : Entropy} {chars : List Char} {count : Int}
    {rest : List (List Char × Int)} {p : PasswordGenerator} {pos : Nat} {u : Unit}
    (h : (satisfyLoop rnd ((chars, count) :: rest) p pos).out = .ok u) :
    ∃ (blk : List Char) (pos1 : Nat), blk.length = count.toNat ∧
      IsDrawn rnd chars pos blk pos1 ∧
      satisfyLoop rnd ((chars, count) :: rest) p pos =
        satisfyLoop rnd rest { p with builder := p.builder ++ blk } pos1 := by
  rw [satisfyLoop] at h ⊢
  cases hout : (addMinimum rnd chars count.toNat p pos).out with
  | error e => rw [hout] at h; simp at h
  | panic k => rw [hout] at h; simp at h
  | ok v =>
    obtain ⟨blk, pos1, hlen, hdr, hres⟩ := addMinimum_ok _ _ _ hout
    exact ⟨blk, pos1, hlen, hdr, by rw [hres]⟩

theorem satisfyMinimumCondition_ok {rnd : Entropy} {p : PasswordGenerator} {pos : Nat} {u : Unit}
    (h : (satisfyMinimumCondition rnd p pos).out = .ok u) :
    ∃ (b1 b2 b3 b4 : List Char) (q1 q2 q3 q4 : Nat),
      b1.length = p.condition.MinUppercase.toNat ∧
      b2.length = p.condition.MinLowercase.toNat ∧
      b3.length = p.condition.MinNumber.toNat ∧
      b4.length = p.condition.MinSpecialChar.toNat ∧
      IsDrawn rnd uppercaseLetters pos b1 q1 ∧
      IsDrawn rnd lowercaseLetters q1 b2 q2 ∧
      IsDrawn rnd numbers q2 b3 q3 ∧
      IsDrawn rnd (getSpecialChars p) q3 b4 q4 ∧
      satisfyMinimumCondition rnd p pos =
        ⟨.ok (), { p with builder := p.builder ++ (b1 ++ b2 ++ b3 ++ b4) }, q4⟩ := by
  unfold satisfyMinimumCondition characterTypes at h ⊢
  obtain ⟨b1, q1, l1, d1, e1⟩ := satisfyLoop_cons_ok h
  rw [e1] at h ⊢
  obtain ⟨b2, q2, l2, d2, e2⟩ := satisfyLoop_cons_ok h
  rw [e2] at h ⊢
  obtain ⟨b3, q3, l3, d3, e3⟩ := satisfyLoop_cons_ok h
  rw [e3] at h ⊢
  obtain ⟨b4, q4, l4, d4, e4⟩ := satisfyLoop_cons_ok h
  rw [e4]
  refine ⟨b1, b2, b3, b4, q1, q2, q3, q4, l1, l2, l3, l4, d1, d2, d3, d4, ?_⟩
  simp [satisfyLoop, List.append_assoc]

/-! ## Accounting lemmas: every outcome of every step -/

theorem addMinimum_facts (rnd : Entropy) (chars : List Char) :
    ∀ (n : Nat) (p : PasswordGenerator) (pos : Nat),
      Facts rnd p pos (addMinimum rnd chars n p pos) ∧
      (∀ e, (addMinimum rnd chars n p pos).out = .error e →
        e = .wrap (minimumMessage chars) .entropy) ∧
      (∀ k, (addMinimum rnd chars n p pos).out = .panic k →
        chars = [] ∧ k = .randIntNonPositive) := by
  intro n
  induction n with
  | zero =>
    intro p pos
    refine ⟨⟨⟨le_refl _, DrawsOk.empty _ _⟩, rfl, rfl⟩, ?_, ?_⟩
    · intro e h; simp [addMinimum] at h
    · intro k h; simp [addMinimum] at h
  | succ n ih =>
    intro p pos
    rw [addMinimum]
    have hacc := addOneChar_accounted rnd chars p pos
    rcases addOneChar_cases rnd chars p pos with
      ⟨hl, h⟩ | ⟨_, q, h⟩ | ⟨_, index, mid, c, _, _, _, h⟩
    · rw [h] at hacc ⊢
      refine ⟨⟨hacc, rfl, rfl⟩, ?_, ?_⟩
      · intro e he; simp at he
      · intro k hk
        simp only [Outcome.panic.injEq] at hk
        exact ⟨hl, hk.symm⟩
    · rw [h] at hacc ⊢
      refine ⟨⟨hacc, rfl, rfl⟩, ?_, ?_⟩
      · intro e he
        simp only [Outcome.error.injEq] at he
        rw [← he]; rfl
      · intro k hk; simp at hk
    · rw [h] at hacc ⊢
      simp only
      obtain ⟨hf, he, hk⟩ := ih { p with builder := p.builder ++ [c] } mid
      exact ⟨⟨hacc.seq hf.accounted, hf.condition, hf.special⟩, he, hk⟩

theorem Facts.compose {α β : Type} {rnd : Entropy} {p : PasswordGenerator} {pos : Nat}
    {r1 : Res α} {r2 : Res β} {a : α} (h1 : Facts rnd p pos r1) (hok : r1.out = .ok a)
    (h2 : Facts rnd r1.p r1.pos r2) : Facts rnd p pos r2 := by
  have hacc := h1.accounted
  rw [hok] at hacc
  exact ⟨hacc.seq h2.accounted, h2.condition.trans h1.condition,
    h2.special.trans h1.special⟩

theorem padLoop_facts (rnd : Entropy) (eligibleChars : List Char) (passLength : Int) :
    ∀ (fuel : Nat) (p : PasswordGenerator) (pos : Nat),
      Facts rnd p pos (padLoop rnd eligibleChars passLength fuel p pos) ∧
      (∀ e, (padLoop rnd eligibleChars passLength fuel p pos).out = .error e →
        e = .entropy) ∧
      (∀ k, (padLoop rnd eligibleChars passLength fuel p pos).out = .panic k →
        eligibleChars = [] ∧ k = .randIntNonPositive) := by
  intro fuel
  induction fuel with
  | zero =>
    intro p pos
    refine ⟨⟨⟨le_refl _, DrawsOk.empty _ _⟩, rfl, rfl⟩, ?_, ?_⟩
    · intro e h; simp [padLoop] at h
    · intro k h; simp [padLoop] at h
  | succ fuel ih =>
    intro p pos
    rw [padLoop]
    by_cases hlt : (p.builder.length : Int) < passLength
    · simp only [hlt, if_true]
      have hacc := addOneChar_accounted rnd eligibleChars p pos
      rcases addOneChar_cases rnd eligibleChars p pos with
        ⟨hl, h⟩ | ⟨_, q, h⟩ | ⟨_, index, mid, c, _, _, _, h⟩
      · rw [h] at hacc ⊢
        refine ⟨⟨hacc, rfl, rfl⟩, ?_, ?_⟩
        · intro e he; simp at he
        · intro k hk
          simp only [Outcome.panic.injEq] at hk
          exact ⟨hl, hk.symm⟩
      · rw [h] at hacc ⊢
        refine ⟨⟨hacc, rfl, rfl⟩, ?_, ?_⟩
        · intro e he
          simp only [Outcome.error.injEq] at he
          exact he.symm
        · intro k hk; simp at hk
      · rw [h] at hacc ⊢
        simp only
        obtain ⟨hf, he, hk⟩ := ih { p with builder := p.builder ++ [c] } mid
        exact ⟨⟨hacc.seq hf.accounted, hf.condition, hf.special⟩, he, hk⟩
    · simp only [hlt, if_false]
      refine ⟨⟨⟨le_refl _, DrawsOk.empty _ _⟩, rfl, rfl⟩, ?_, ?_⟩
      · intro e h; simp at h
      · intro k h; simp at h

theorem satisfyLoop_facts (rnd : Entropy) :
    ∀ (table : List (List Char × Int)) (p : PasswordGenerator) (pos : Nat),
      Facts rnd p pos (satisfyLoop rnd table p pos) ∧
      (∀ e, (satisfyLoop rnd table p pos).out = .error e →
        ∃ chars, chars ∈ table.map Prod.fst ∧ e = .wrap (minimumMessage chars) .entropy) ∧
      (∀ k, (satisfyLoop rnd table p pos).out = .panic k →
        k = .randIntNonPositive ∧ ∃ t ∈ table, t.1 = [] ∧ 0 < t.2) := by
  intro table
  induction table with
  | nil =>
    intro p pos
    refine ⟨⟨⟨le_refl _, DrawsOk.empty _ _⟩, rfl, rfl⟩, ?_, ?_⟩
    · intro e h; simp [satisfyLoop] at h
    · intro k h; simp [satisfyLoop] at h
  | cons t rest ih =>
    obtain ⟨chars, count⟩ := t
    intro p pos
    rw [satisfyLoop]
    obtain ⟨hf, he, hk⟩ := addMinimum_facts rnd chars count.toNat p pos
    cases hout : (addMinimum rnd chars count.toNat p pos).out with
    | ok u =>
      simp only
      obtain ⟨hf2, he2, hk2⟩ := ih (addMinimum rnd chars count.toNat p pos).p
        (addMinimum rnd chars count.toNat p pos).pos
      refine ⟨hf.compose hout hf2, ?_, ?_⟩
      · intro e h
        obtain ⟨cs, hcs, hes⟩ := he2 e h
        exact ⟨cs, by simp only [List.map_cons, List.mem_cons]; exact Or.inr hcs, hes⟩
      · intro k h
        obtain ⟨hk1, t, ht, hte⟩ := hk2 k h
        exact ⟨hk1, t, List.mem_cons_of_mem _ ht, hte⟩
    | error e =>
      simp only
      have hacc := hf.accounted
      rw [hout] at hacc
      refine ⟨⟨hacc, hf.condition, hf.special⟩, ?_, ?_⟩
      · intro e1 h1
        simp only [Outcome.error.injEq] at h1
        subst h1
        exact ⟨chars, by simp, he e hout⟩
      · intro k h; simp at h
    | panic k =>
      simp only
      have hacc := hf.accounted
      rw [hout] at hacc
      refine ⟨⟨hacc, hf.condition, hf.special⟩, ?_, ?_⟩
      · intro e h; simp at h
      · intro k1 h1
        simp only [Outcome.panic.injEq] at h1
        subst h1
        obtain ⟨hc, hkk⟩ := hk k hout
        refine ⟨hkk, (chars, count), by simp, hc, ?_⟩
        by_contra hcount
        have hz : count.toNat = 0 := by
          simp only [not_lt] at hcount
          exact Int.toNat_of_nonpos hcount
        rw [hz] at hout
        simp [addMinimum] at hout

theorem satisfyMinimumCondition_facts (rnd : Entropy) (p : PasswordGenerator) (pos : Nat) :
    Facts rnd p pos (satisfyMinimumCondition rnd p pos) ∧
    (∀ e, (satisfyMinimumCondition rnd p pos).out = .error e →
      ∃ chars, chars ∈ [uppercaseLetters, lowercaseLetters, numbers, getSpecialChars p] ∧
        e = .wrap (minimumMessage chars) .entropy) ∧
    (∀ k, (satisfyMinimumCondition rnd p pos).out = .panic k →
      k = .randIntNonPositive ∧ getSpecialChars p = [] ∧ 0 < p.condition.MinSpecialChar) := by
  unfold satisfyMinimumCondition
  obtain ⟨hf, he, hk⟩ := satisfyLoop_facts rnd (characterTypes p) p pos
  refine ⟨hf, ?_, ?_⟩
  · intro e h
    obtain ⟨chars, hc, hes⟩ := he e h
    exact ⟨chars, by simpa [characterTypes] using hc, hes⟩
  · intro k h
    obtain ⟨hk1, t, ht, hnil, hcount⟩ := hk k h
    refine ⟨hk1, ?_⟩
    simp only [characterTypes, List.mem_cons, List.mem_singleton, List.not_mem_nil,
      or_false] at ht
    rcases ht with ht | ht | ht | ht
    · subst ht; exact absurd (show uppercaseLetters = [] from hnil) (by decide)
    · subst ht; exact absurd (show lowercaseLetters = [] from hnil) (by decide)
    · subst ht; exact absurd (show numbers = [] from hnil) (by decide)
    · subst ht; exact ⟨hnil, hcount⟩

/-! ## Generate -/

theorem Generate_ok {rnd : Entropy} {p : PasswordGenerator} {pos : Nat} {pw : List Char}
    (h : (Generate rnd p pos).out = .ok pw) :
    ∃ L : Layout, L.Explains rnd p pos ∧ pw = L.password ∧
      Generate rnd p pos = ⟨.ok pw, { p with builder := pw }, L.paddingEnd⟩ := by
  unfold Generate at h ⊢
  simp only at h ⊢
  cases hout : (satisfyMinimumCondition rnd { p with builder := [] } pos).out with
  | error e => rw [hout] at h; simp at h
  | panic k => rw [hout] at h; simp at h
  | ok v =>
    obtain ⟨b1, b2, b3, b4, q1, q2, q3, q4, l1, l2, l3, l4, d1, d2, d3, d4, hres⟩ :=
      satisfyMinimumCondition_ok hout
    rw [hres] at h ⊢
    simp only [List.nil_append] at h ⊢
    cases hrb : randBetween rnd q4 p.condition.MinLength p.condition.MaxLength with
    | mk o pos2 =>
      cases o with
      | error e => rw [hrb] at h; simp at h
      | panic k => rw [hrb] at h; simp at h
      | ok t =>
        rw [hrb] at h
        simp only at h ⊢
        cases hpad : (padLoop rnd
            (uppercaseLetters ++ lowercaseLetters ++ numbers ++
              match p.allowedSpecialChars with
              | some s => s
              | none => specialChars)
            t (t - ((b1 ++ b2 ++ b3 ++ b4).length : Int)).toNat
            { p with builder := b1 ++ b2 ++ b3 ++ b4 } pos2).out with
        | error e => rw [hpad] at h; simp at h
        | panic k => rw [hpad] at h; simp at h
        | ok w =>
          obtain ⟨pad, pos3, hdr, hpres, hplen⟩ := padLoop_ok _ _ _ hpad
          have hlen : (b1 ++ b2 ++ b3 ++ b4).length = minTotal p.condition := by
            simp only [List.length_append, minTotal, l1, l2, l3, l4]
          rw [hpres] at h ⊢
          simp only [Outcome.ok.injEq] at h
          subst h
          refine ⟨⟨b1, b2, b3, b4, pad, t, q1, q2, q3, q4, pos2, pos3⟩, ?_, rfl, rfl⟩
          refine ⟨l1, l2, l3, l4, d1, d2, d3, d4, ?_, hrb, ?_, hdr⟩
          · rw [hres]
          · have := hplen (le_refl _)
            simp only at this
            rw [this, hlen]

theorem eligibleChars_ne_nil (s : List Char) :
    uppercaseLetters ++ lowercaseLetters ++ numbers ++ s ≠ [] := by
  intro h
  have h1 : (uppercaseLetters ++ lowercaseLetters ++ numbers ++ s).length = 0 := by rw [h]; rfl
  simp only [List.length_append] at h1
  have h2 : uppercaseLetters.length = 26 := by decide
  omega

/-- Every outcome of `Generate`: its reads are accounted for, the stored
conditions and the override are left as they were, a returned error carries
the message of the phase in which the call stopped, and a panic has one of two
causes. -/
theorem Generate_facts (rnd : Entropy) (p : PasswordGenerator) (pos : Nat) :
    Accounted rnd pos (Generate rnd p pos).out (Generate rnd p pos).pos ∧
    (Generate rnd p pos).p.condition = p.condition ∧
    (Generate rnd p pos).p.allowedSpecialChars = p.allowedSpecialChars ∧
    (∀ e, (Generate rnd p pos).out = .error e →
      ((Generate rnd p pos).pos = minimumEnd rnd p pos ∧
        ∃ chars, chars ∈ [uppercaseLetters, lowercaseLetters, numbers, getSpecialChars p] ∧
          e = .wrap satisfyMessage (.wrap (minimumMessage chars) .entropy)) ∨
      (minimumEnd rnd p pos < (Generate rnd p pos).pos ∧
        (Generate rnd p pos).pos = lengthEnd rnd p pos ∧
        e = .wrap lengthMessage .entropy) ∨
      (minimumEnd rnd p pos ≤ lengthEnd rnd p pos ∧
        lengthEnd rnd p pos < (Generate rnd p pos).pos ∧
        e = .wrap paddingMessage .entropy)) ∧
    (∀ k, (Generate rnd p pos).out = .panic k → k = .randIntNonPositive ∧
      ((getSpecialChars p = [] ∧ 0 < p.condition.MinSpecialChar) ∨
       ((Generate rnd p pos).pos = minimumEnd rnd p pos ∧
         wrap64 (p.condition.MaxLength - p.condition.MinLength) ≤ 0))) := by
  obtain ⟨hf, he, hk⟩ := satisfyMinimumCondition_facts rnd { p with builder := [] } pos
  have hacc := hf.accounted
  have hcond := hf.condition
  have hspec := hf.special
  unfold lengthEnd minimumEnd Generate
  simp only
  cases hout : (satisfyMinimumCondition rnd { p with builder := [] } pos).out with
  | error e =>
    simp only
    rw [hout] at hacc
    refine ⟨hacc, hcond, hspec, ?_, ?_⟩
    · intro e1 h1
      simp only [Outcome.error.injEq] at h1
      subst h1
      left
      obtain ⟨chars, hc, hes⟩ := he e hout
      exact ⟨by trivial, chars, hc, by rw [hes]; rfl⟩
    · intro k h; simp at h
  | panic k =>
    simp only
    rw [hout] at hacc
    refine ⟨hacc, hcond, hspec, ?_, ?_⟩
    · intro e h; simp at h
    · intro k1 h1
      simp only [Outcome.panic.injEq] at h1
      subst h1
      obtain ⟨hk1, hnil, hcount⟩ := hk k hout
      exact ⟨hk1, Or.inl ⟨hnil, hcount⟩⟩
  | ok u =>
    obtain ⟨b1, b2, b3, b4, q1, q2, q3, q4, _, _, _, _, _, _, _, _, hres⟩ :=
      satisfyMinimumCondition_ok hout
    rw [hout] at hacc
    rw [hres] at hacc ⊢
    simp only [List.nil_append] at hacc ⊢
    obtain ⟨hacc2, _, herr2, hpanic2⟩ :=
      randBetween_facts rnd q4 p.condition.MinLength p.condition.MaxLength
    generalize randBetween rnd q4 p.condition.MinLength p.condition.MaxLength = rb
      at hacc2 herr2 hpanic2 ⊢
    obtain ⟨o, pos2⟩ := rb
    cases o with
    | panic k =>
      simp only at hacc2 hpanic2 ⊢
      obtain ⟨hk1, hd, hq⟩ := hpanic2 k rfl
      subst hq
      refine ⟨hacc, by trivial, by trivial, ?_, ?_⟩
      · intro e h; simp at h
      · intro k1 h1
        simp only [Outcome.panic.injEq] at h1
        exact ⟨by rw [← h1]; exact hk1, Or.inr ⟨by trivial, hd⟩⟩
    | error e =>
      simp only at hacc2 herr2 ⊢
      have he2 := herr2 e rfl
      subst he2
      refine ⟨hacc.seq hacc2, by trivial, by trivial, ?_, ?_⟩
      · intro e1 h1
        simp only [Outcome.error.injEq] at h1
        right; left
        exact ⟨hacc2.2.1, by trivial, by rw [← h1]; rfl⟩
      · intro k h; simp at h
    | ok t =>
      simp only at hacc2 ⊢
      have hacc12 := hacc.seq hacc2
      obtain ⟨hf3, he3, hk3⟩ := padLoop_facts rnd
        (uppercaseLetters ++ lowercaseLetters ++ numbers ++
          match p.allowedSpecialChars with
          | some s => s
          | none => specialChars)
        t (t - ((b1 ++ b2 ++ b3 ++ b4).length : Int)).toNat
        { p with builder := b1 ++ b2 ++ b3 ++ b4 } pos2
      generalize padLoop rnd _ _ _ _ _ = r3 at hf3 he3 hk3 ⊢
      have hacc3 := hf3.accounted
      have hcond3 : r3.p.condition = p.condition := hf3.condition
      have hspec3 : r3.p.allowedSpecialChars = p.allowedSpecialChars := hf3.special
      cases hpad : r3.out with
      | error e =>
        simp only
        rw [hpad] at hacc3
        refine ⟨hacc12.seq hacc3, hcond3, hspec3, ?_, ?_⟩
        · intro e1 h1
          simp only [Outcome.error.injEq] at h1
          right; right
          exact ⟨hacc2.1, hacc3.2.1, by rw [← h1, he3 e hpad]; rfl⟩
        · intro k h; simp at h
      | panic k =>
        exact absurd (hk3 k hpad).1 (eligibleChars_ne_nil _)
      | ok w =>
        simp only
        rw [hpad] at hacc3
        refine ⟨hacc12.seq hacc3, hcond3, hspec3, ?_, ?_⟩
        · intro e h; simp at h
        · intro k h; simp at h

theorem countIn_append (set a b : List Char) :
    countIn set (a ++ b) = countIn set a + countIn set b := by
  unfold countIn; exact List.countP_append _ _ _

theorem countIn_of_drawn {rnd : Entropy} {set : List Char} {pos pos1 : Nat} {blk : List Char}
    (h : IsDrawn rnd set pos blk pos1) : countIn set blk = blk.length := by
  unfold countIn
  rw [List.countP_eq_length]
  intro c hc
  simpa using h.mem c hc

/-- C5: on every successful Generate the password holds at least MinUppercase
bytes of the uppercase alphabet, at least MinLowercase of the lowercase
alphabet, at least MinNumber digits and at least MinSpecialChar bytes of the
active special set (the override if given, else the default set). -/
theorem Generate_minimum_counts (rnd : Entropy) (p : PasswordGenerator) (pos : Nat)
    (pw : List Char) (h : (Generate rnd p pos).out = .ok pw) :
    p.condition.MinUppercase ≤ (countIn uppercaseLetters pw : Int) ∧
    p.condition.MinLowercase ≤ (countIn lowercaseLetters pw : Int) ∧
    p.condition.MinNumber ≤ (countIn numbers pw : Int) ∧
    p.condition.MinSpecialChar ≤ (countIn (getSpecialChars p) pw : Int) := by
  obtain ⟨L, hL, hpw, _⟩ := Generate_ok h
  subst hpw
  have h1 := countIn_of_drawn hL.upper_drawn
  have h2 := countIn_of_drawn hL.lower_drawn
  have h3 := countIn_of_drawn hL.digit_drawn
  have h4 := countIn_of_drawn hL.special_drawn
  have l1 := hL.upper_length
  have l2 := hL.lower_length
  have l3 := hL.digit_length
  have l4 := hL.special_length
  simp only [Layout.password, countIn_append]
  refine ⟨?_, ?_, ?_, ?_⟩ <;> omega

/-- C6: on every successful Generate the password starts with the four blocks in
fixed order: a block of MinUppercase uppercase letters, then MinLowercase
lowercase letters, then MinNumber digits, then MinSpecialChar bytes of the
active special set (a negative count gives an empty block); each block holds,
in draw order, the bytes at the indexes that successive draws on its set
returned, the draws of a block starting where those of the block before ended. -/
theorem Generate_block_layout (rnd : Entropy) (p : PasswordGenerator) (pos : Nat)
    (pw : List Char) (h : (Generate rnd p pos).out = .ok pw) :
    ∃ (upper lower digit special rest : List Char) (q1 q2 q3 q4 : Nat),
      pw = upper ++ lower ++ digit ++ special ++ rest ∧
      upper.length = p.condition.MinUppercase.toNat ∧
      lower.length = p.condition.MinLowercase.toNat ∧
      digit.length = p.condition.MinNumber.toNat ∧
      special.length = p.condition.MinSpecialChar.toNat ∧
      (∀ c ∈ upper, c ∈ uppercaseLetters) ∧
      (∀ c ∈ lower, c ∈ lowercaseLetters) ∧
      (∀ c ∈ digit, c ∈ numbers) ∧
      (∀ c ∈ special, c ∈ getSpecialChars p) ∧
      IsDrawn rnd uppercaseLetters pos upper q1 ∧
      IsDrawn rnd lowercaseLetters q1 lower q2 ∧
      IsDrawn rnd numbers q2 digit q3 ∧
      IsDrawn rnd (getSpecialChars p) q3 special q4 := by
  obtain ⟨L, hL, hpw, _⟩ := Generate_ok h
  exact ⟨L.upper, L.lower, L.digit, L.special, L.padding,
    L.upperEnd, L.lowerEnd, L.digitEnd, L.specialEnd, hpw,
    hL.upper_length, hL.lower_length, hL.digit_length, hL.special_length,
    hL.upper_drawn.mem, hL.lower_drawn.mem, hL.digit_drawn.mem, hL.special_drawn.mem,
    hL.upper_drawn, hL.lower_drawn, hL.digit_drawn, hL.special_drawn⟩

/-- C8: on every successful Generate the length of the password is at least
MinUppercase + MinLowercase + MinNumber + MinSpecialChar. -/
theorem Generate_length_ge_minimums (rnd : Entropy) (p : PasswordGenerator) (pos : Nat)
    (pw : List Char) (h : (Generate rnd p pos).out = .ok pw) :
    p.condition.MinUppercase + p.condition.MinLowercase + p.condition.MinNumber +
      p.condition.MinSpecialChar ≤ (pw.length : Int) := by
  obtain ⟨L, hL, hpw, _⟩ := Generate_ok h
  subst hpw
  have l1 := hL.upper_length
  have l2 := hL.lower_length
  have l3 := hL.digit_length
  have l4 := hL.special_length
  simp only [Layout.password, List.length_append]
  omega

/-- Witness of C5 on `demoGenerator`. -/
theorem Generate_minimum_counts_witness :
    (Generate demoEntropy demoGenerator 0).out = .ok demoPassword ∧
    (demoGenerator.condition.MinUppercase ≤ (countIn uppercaseLetters demoPassword : Int) ∧
     demoGenerator.condition.MinLowercase ≤ (countIn lowercaseLetters demoPassword : Int) ∧
     demoGenerator.condition.MinNumber ≤ (countIn numbers demoPassword : Int) ∧
     demoGenerator.condition.MinSpecialChar ≤
       (countIn (getSpecialChars demoGenerator) demoPassword : Int)) :=
  ⟨by decide, Generate_minimum_counts demoEntropy demoGenerator 0 demoPassword (by decide)⟩

/-- Witness of C6 on `demoGenerator`: the password De5@eo!$!! starts with the
blocks D, e, 5 and @. -/
theorem Generate_block_layout_witness :
    (Generate demoEntropy demoGenerator 0).out = .ok demoPassword ∧
    ∃ (upper lower digit special rest : List Char) (q1 q2 q3 q4 : Nat),
      demoPassword = upper ++ lower ++ digit ++ special ++ rest ∧
      upper.length = demoGenerator.condition.MinUppercase.toNat ∧
      lower.length = demoGenerator.condition.MinLowercase.toNat ∧
      digit.length = demoGenerator.condition.MinNumber.toNat ∧
      special.length = demoGenerator.condition.MinSpecialChar.toNat ∧
      (∀ c ∈ upper, c ∈ uppercaseLetters) ∧
      (∀ c ∈ lower, c ∈ lowercaseLetters) ∧
      (∀ c ∈ digit, c ∈ numbers) ∧
      (∀ c ∈ special, c ∈ getSpecialChars demoGenerator) ∧
      IsDrawn demoEntropy uppercaseLetters 0 upper q1 ∧
      IsDrawn demoEntropy lowercaseLetters q1 lower q2 ∧
      IsDrawn demoEntropy numbers q2 digit q3 ∧
      IsDrawn demoEntropy (getSpecialChars demoGenerator) q3 special q4 :=
  ⟨by decide, Generate_block_layout demoEntropy demoGenerator 0 demoPassword (by decide)⟩

/-- Witness of C8 on `demoGenerator`. -/
theorem Generate_length_ge_minimums_witness :
    (Generate demoEntropy demoGenerator 0).out = .ok demoPassword ∧
    demoGenerator.condition.MinUppercase + demoGenerator.condition.MinLowercase +
      demoGenerator.condition.MinNumber + demoGenerator.condition.MinSpecialChar ≤
        (demoPassword.length : Int) :=
  ⟨by decide, Generate_length_ge_minimums demoEntropy demoGenerator 0 demoPassword (by decide)⟩

/-! ## Every character is eligible -/

theorem specialChars_not_alphanumeric :
    ∀ c ∈ specialChars, c ∉ uppercaseLetters ++ lowercaseLetters ++ numbers := by
  decide

/-- C11: on every successful Generate each byte of the password belongs to the
set uppercase + lowercase + digits + active special set; with an override given,
a default special character that is not in the override does not occur in the
password. -/
theorem Generate_chars_eligible (rnd : Entropy) (p : PasswordGenerator) (pos : Nat)
    (pw : List Char) (h : (Generate rnd p pos).out = .ok pw) :
    (∀ c ∈ pw, c ∈ uppercaseLetters ++ lowercaseLetters ++ numbers ++ getSpecialChars p) ∧
    (∀ s : List Char, p.allowedSpecialChars = some s →
      ∀ c ∈ specialChars, c ∉ s → c ∉ pw) := by
  obtain ⟨L, hL, hpw, _⟩ := Generate_ok h
  subst hpw
  have hall : ∀ c ∈ L.password,
      c ∈ uppercaseLetters ++ lowercaseLetters ++ numbers ++ getSpecialChars p := by
    intro c hc
    simp only [Layout.password, List.mem_append] at hc ⊢
    rcases hc with (((hc | hc) | hc) | hc) | hc
    · exact Or.inl (Or.inl (Or.inl (hL.upper_drawn.mem c hc)))
    · exact Or.inl (Or.inl (Or.inr (hL.lower_drawn.mem c hc)))
    · exact Or.inl (Or.inr (hL.digit_drawn.mem c hc))
    · exact Or.inr (hL.special_drawn.mem c hc)
    · have := hL.padding_drawn.mem c hc
      simpa only [eligible, List.mem_append] using this
  refine ⟨hall, ?_⟩
  intro s hs c hc hns hmem
  have h1 := hall c hmem
  have hsp : getSpecialChars p = s := by simp [getSpecialChars, hs]
  rw [hsp, List.mem_append] at h1
  rcases h1 with h1 | h1
  · exact specialChars_not_alphanumeric c hc h1
  · exact hns h1

/-- Witness of C11 on `overrideGenerator`. -/
theorem Generate_chars_eligible_witness :
    (Generate demoEntropy overrideGenerator 0).out = .ok overridePassword ∧
    ((∀ c ∈ overridePassword,
        c ∈ uppercaseLetters ++ lowercaseLetters ++ numbers ++
          getSpecialChars overrideGenerator) ∧
     (∀ s : List Char, overrideGenerator.allowedSpecialChars = some s →
        ∀ c ∈ specialChars, c ∉ s → c ∉ overridePassword)) :=
  ⟨by decide, Generate_chars_eligible demoEntropy overrideGenerator 0 overridePassword
    (by decide)⟩

/-! ## The length of the password -/

theorem randBetween_ok_range {rnd : Entropy} {pos pos1 : Nat} {min max t : Int}
    (hmin : inInt64 min) (hmax : inInt64 max) (hlt : min < max)
    (h : randBetween rnd pos min max = (.ok t, pos1)) : min ≤ t ∧ t < max := by
  obtain ⟨hpos, n, h0, h1, ht⟩ := randBetween_ok h
  have hd : wrap64 (max - min) = max - min := by
    unfold inInt64 at hmin hmax
    unfold wrap64 at hpos ⊢
    omega
  rw [hd] at h1
  have hw : wrap64 (n + min) = n + min := by
    apply wrap64_of_inInt64
    unfold inInt64 at hmin hmax ⊢
    omega
  rw [hw] at ht
  omega

/-- On every successful Generate the password length is max(M, t) for the
target t of the length draw, made where the minimum-condition phase ended. -/
theorem Generate_length_max {rnd : Entropy} {p : PasswordGenerator} {pos : Nat}
    {pw : List Char} (h : (Generate rnd p pos).out = .ok pw) :
    ∃ (t : Int) (targetEnd : Nat),
      randBetween rnd (minimumEnd rnd p pos) p.condition.MinLength p.condition.MaxLength
        = (.ok t, targetEnd) ∧
      (pw.length : Int) = max (minTotal p.condition : Int) t := by
  obtain ⟨L, hL, hpw, _⟩ := Generate_ok h
  subst hpw
  refine ⟨L.target, L.targetEnd, ?_, ?_⟩
  · unfold minimumEnd
    rw [hL.minimum_end]
    exact hL.target_drawn
  · have l1 := hL.upper_length
    have l2 := hL.lower_length
    have l3 := hL.digit_length
    have l4 := hL.special_length
    have l5 := hL.padding_length
    simp only [Layout.password, List.length_append, minTotal] at l5 ⊢
    omega

/-- A generator with the conditions that NewGenerator stores, on which Generate
returns a password of fewer than 9223372036854775807 bytes, has
MinLength < MaxLength; so has no successful run on the zero value of the struct. -/
theorem Generate_ok_lengths_ordered {rnd : Entropy} {p : PasswordGenerator} {pos : Nat}
    {pw : List Char} (c : Conditions) (o : Option (List Char))
    (hp : p.condition = (NewGenerator c o).condition ∨ p.condition = ⟨0, 0, 0, 0, 0, 0⟩)
    (hmin : inInt64 c.MinLength) (hmax : inInt64 c.MaxLength)
    (h : (Generate rnd p pos).out = .ok pw)
    (hlen : (pw.length : Int) < 9223372036854775807) :
    inInt64 p.condition.MinLength ∧ inInt64 p.condition.MaxLength ∧
      p.condition.MinLength < p.condition.MaxLength := by
  obtain ⟨t, targetEnd, hdraw, hmaxlen⟩ := Generate_length_max h
  obtain ⟨hd, n, hn0, hn1, ht⟩ := randBetween_ok hdraw
  unfold inInt64 at hmin hmax ⊢
  rcases hp with hp | hp
  · have hMin : p.condition.MinLength = if c.MinLength = 0 then 8 else c.MinLength := by
      rw [hp, NewGenerator_condition]; rfl
    have hMax : p.condition.MaxLength =
        if (if c.MinLength = 0 then 8 else c.MinLength) >
            (if c.MaxLength = 0 then 15 else c.MaxLength)
        then wrap64 ((if c.MinLength = 0 then 8 else c.MinLength) + 1)
        else (if c.MaxLength = 0 then 15 else c.MaxLength) := by
      rw [hp, NewGenerator_condition]; rfl
    generalize p.condition.MinLength = m at hMin hd hn1 ht ⊢
    generalize p.condition.MaxLength = M at hMax hd hn1 ⊢
    have hm : -9223372036854775808 ≤ m ∧ m ≤ 9223372036854775807 := by
      rw [hMin]; split <;> omega
    have hM0 : -9223372036854775808 ≤ (if c.MaxLength = 0 then 15 else c.MaxLength) ∧
        (if c.MaxLength = 0 then 15 else c.MaxLength) ≤ 9223372036854775807 := by
      split <;> omega
    rw [← hMin] at hMax
    generalize (if c.MaxLength = 0 then 15 else c.MaxLength) = M0 at hMax hM0
    by_cases hgt : m > M0
    · simp only [hgt, if_true] at hMax
      by_cases htop : m = 9223372036854775807
      · subst htop
        have hM : M = -9223372036854775808 := by
          rw [hMax]; unfold wrap64; omega
        subst hM
        have hd1 : wrap64 (-9223372036854775808 - 9223372036854775807) = 1 := by
          unfold wrap64; omega
        rw [hd1] at hn1
        have hn : n = 0 := by omega
        subst hn
        have ht1 : t = 9223372036854775807 := by
          rw [ht]; unfold wrap64; omega
        omega
      · have hM : M = m + 1 := by
          rw [hMax]; unfold wrap64; omega
        omega
    · simp only [hgt, if_false] at hMax
      subst hMax
      unfold wrap64 at hd
      omega
  · rw [hp] at hd ⊢
    simp only at hd ⊢
    unfold wrap64 at hd
    omega

/-- C7: for every generator that a caller can build (its conditions are those
stored by NewGenerator, or it is the zero value of the struct) and every
successful Generate returning a password of fewer than 9223372036854775807
bytes, the length draw, made where the minimum-condition phase ended, yields a
target t with MinLength <= t < MaxLength, and the password length equals
max(M, t), where M is the number of bytes the minimum-condition phase wrote. -/
theorem Generate_length_target (rnd : Entropy) (p : PasswordGenerator) (pos : Nat)
    (pw : List Char) (c : Conditions) (o : Option (List Char))
    (hp : p.condition = (NewGenerator c o).condition ∨ p.condition = ⟨0, 0, 0, 0, 0, 0⟩)
    (hmin : inInt64 c.MinLength) (hmax : inInt64 c.MaxLength)
    (h : (Generate rnd p pos).out = .ok pw)
    (hlen : (pw.length : Int) < 9223372036854775807) :
    ∃ (t : Int) (targetEnd : Nat),
      randBetween rnd (minimumEnd rnd p pos) p.condition.MinLength p.condition.MaxLength
        = (.ok t, targetEnd) ∧
      p.condition.MinLength ≤ t ∧ t < p.condition.MaxLength ∧
      (pw.length : Int) = max (minTotal p.condition : Int) t := by
  obtain ⟨hm, hM, hlt⟩ := Generate_ok_lengths_ordered c o hp hmin hmax h hlen
  obtain ⟨t, targetEnd, hdraw, hmaxlen⟩ := Generate_length_max h
  obtain ⟨hlo, hhi⟩ := randBetween_ok_range hm hM hlt hdraw
  exact ⟨t, targetEnd, hdraw, hlo, hhi, hmaxlen⟩

/-- Witness of C7 on `demoGenerator`: the target is 10 and so is the length of
the password. -/
theorem Generate_length_target_witness :
    (demoGenerator.condition = (NewGenerator ⟨1, 1, 1, 1, 0, 0⟩ none).condition ∨
      demoGenerator.condition = ⟨0, 0, 0, 0, 0, 0⟩) ∧
    inInt64 (⟨1, 1, 1, 1, 0, 0⟩ : Conditions).MinLength ∧
    inInt64 (⟨1, 1, 1, 1, 0, 0⟩ : Conditions).MaxLength ∧
    (Generate demoEntropy demoGenerator 0).out = .ok demoPassword ∧
    (demoPassword.length : Int) < 9223372036854775807 ∧
    ∃ (t : Int) (targetEnd : Nat),
      randBetween demoEntropy (minimumEnd demoEntropy demoGenerator 0)
          demoGenerator.condition.MinLength demoGenerator.condition.MaxLength
        = (.ok t, targetEnd) ∧
      demoGenerator.condition.MinLength ≤ t ∧ t < demoGenerator.condition.MaxLength ∧
      (demoPassword.length : Int) = max (minTotal demoGenerator.condition : Int) t :=
  ⟨Or.inl rfl, by decide, by decide, by decide, by decide,
    Generate_length_target demoEntropy demoGenerator 0 demoPassword ⟨1, 1, 1, 1, 0, 0⟩ none
      (Or.inl rfl) (by decide) (by decide) (by decide) (by decide)⟩

/-! ## Failing reads -/

/-- C13: a read made during Generate that fails is the last read of the call:
Generate stops there and returns no password together with an error that wraps
the cause reported by the entropy source, annotated with the phase in which
the read was made (minimum condition: before the position where that phase
ends; password length: from there up to the position after the length draw;
adding random character: after that); and no call of Generate returns both a
password and an error. -/
theorem Generate_failed_draw (rnd : Entropy) (p : PasswordGenerator) (pos j : Nat)
    (hlo : pos ≤ j) (hhi : j < (Generate rnd p pos).pos) (hfail : readAt rnd j = none) :
    (Generate rnd p pos).pos = j + 1 ∧
    (Generate rnd p pos).password = none ∧
    (∃ e, (Generate rnd p pos).err = some e ∧
      ((j < minimumEnd rnd p pos ∧
        ∃ chars, chars ∈ [uppercaseLetters, lowercaseLetters, numbers, getSpecialChars p] ∧
          e = .wrap satisfyMessage (.wrap (minimumMessage chars) .entropy)) ∨
       (minimumEnd rnd p pos ≤ j ∧ j < lengthEnd rnd p pos ∧
          e = .wrap lengthMessage .entropy) ∨
       (minimumEnd rnd p pos ≤ lengthEnd rnd p pos ∧ lengthEnd rnd p pos ≤ j ∧
          e = .wrap paddingMessage .entropy))) ∧
    (∀ (rnd1 : Entropy) (p1 : PasswordGenerator) (pos1 : Nat),
      ¬ ((Generate rnd1 p1 pos1).password ≠ none ∧ (Generate rnd1 p1 pos1).err ≠ none)) := by
  obtain ⟨hacc, _, _, he, _⟩ := Generate_facts rnd p pos
  have hlast : ∀ e, (Generate rnd p pos).out = .error e →
      (Generate rnd p pos).pos = j + 1 := by
    intro e hout
    rw [hout] at hacc
    obtain ⟨_, hlt, hd, _⟩ := hacc
    by_contra hne
    exact hd j hlo (by omega) hfail
  have hnever : ∀ (rnd1 : Entropy) (p1 : PasswordGenerator) (pos1 : Nat),
      ¬ ((Generate rnd1 p1 pos1).password ≠ none ∧ (Generate rnd1 p1 pos1).err ≠ none) := by
    intro rnd1 p1 pos1
    unfold Res.password Res.err
    cases (Generate rnd1 p1 pos1).out <;> simp
  cases hout : (Generate rnd p pos).out with
  | ok pw =>
    rw [hout] at hacc
    exact absurd hfail (hacc.2 j hlo hhi)
  | panic k =>
    rw [hout] at hacc
    exact absurd hfail (hacc.2 j hlo hhi)
  | error e =>
    have hpos := hlast e hout
    refine ⟨hpos, by simp [Res.password, hout], ⟨e, by simp [Res.err, hout], ?_⟩, hnever⟩
    rcases he e hout with ⟨h1, h2⟩ | ⟨h1, h2, h3⟩ | ⟨h1, h2, h3⟩
    · exact Or.inl ⟨by omega, h2⟩
    · exact Or.inr (Or.inl ⟨by omega, by omega, h3⟩)
    · exact Or.inr (Or.inr ⟨h1, by omega, h3⟩)

/-- Witness of C13: on `failingEntropy` the digit draw of `demoGenerator` fails. -/
theorem Generate_failed_draw_witness :
    0 ≤ 2 ∧ 2 < (Generate failingEntropy demoGenerator 0).pos ∧
    readAt failingEntropy 2 = none ∧
    (Generate failingEntropy demoGenerator 0).pos = 2 + 1 ∧
    (Generate failingEntropy demoGenerator 0).err =
      some (.wrap satisfyMessage (.wrap (minimumMessage numbers) .entropy)) :=
  ⟨by decide, by decide, by decide,
    (Generate_failed_draw failingEntropy demoGenerator 0 2 (by decide) (by decide)
      (by decide)).1,
    by decide⟩

/-! ## The buffer -/

/-- C16: Generate starts from an empty buffer, so its whole result is the same
whatever the buffer held before; in particular a call made on the generator
left by any earlier call returns what the call on the fresh generator returns
on the same draws; and Generate leaves the stored conditions and the override
as they were. -/
theorem Generate_buffer_reset (rnd : Entropy) (p : PasswordGenerator) (pos : Nat) :
    (∀ b : List Char, Generate rnd { p with builder := b } pos = Generate rnd p pos) ∧
    (∀ (rnd0 : Entropy) (pos0 : Nat),
      (Generate rnd (Generate rnd0 p pos0).p pos).out = (Generate rnd p pos).out) ∧
    (Generate rnd p pos).p.condition = p.condition ∧
    (Generate rnd p pos).p.allowedSpecialChars = p.allowedSpecialChars := by
  have hreset : ∀ (q : PasswordGenerator) (b : List Char),
      Generate rnd { q with builder := b } pos = Generate rnd q pos := by
    intro q b; rfl
  obtain ⟨_, hcond, hspec, _, _⟩ := Generate_facts rnd p pos
  refine ⟨hreset p, ?_, hcond, hspec⟩
  intro rnd0 pos0
  obtain ⟨_, hc0, hs0, _, _⟩ := Generate_facts rnd0 p pos0
  have hq : (Generate rnd0 p pos0).p =
      { p with builder := (Generate rnd0 p pos0).p.builder } := by
    cases hg : (Generate rnd0 p pos0).p with
    | mk c b o =>
      rw [hg] at hc0 hs0
      simp only at hc0 hs0
      subst hc0; subst hs0
      rfl
  rw [hq, hreset p]


/-! ## Statements about NewGenerator -/

/-- C2, as stated, fails: with MaxLength 0 and MinLength 20 the default 15 is
replaced again by the coercion, and the effective MaxLength is 21. -/
theorem NewGenerator_maxLength_zero_not_default :
    (⟨0, 0, 0, 0, 20, 0⟩ : Conditions).MaxLength = 0 ∧
    (NewGenerator ⟨0, 0, 0, 0, 20, 0⟩ none).condition.MaxLength = 21 ∧
    (NewGenerator ⟨0, 0, 0, 0, 20, 0⟩ none).condition.MaxLength ≠ 15 := by
  decide

/-- C2, amended: when the given MaxLength is 0 and the given MinLength is at most
15, the effective MaxLength is 15; and when the given MinLength is 0 as well,
the effective MinLength is 8. -/
theorem NewGenerator_maxLength_default (c : Conditions) (o : Option (List Char))
    (hmax : c.MaxLength = 0) (hmin : c.MinLength ≤ 15) :
    (NewGenerator c o).condition.MaxLength = 15 ∧
    (c.MinLength = 0 → (NewGenerator c o).condition.MinLength = 8) := by
  rw [NewGenerator_condition]
  simp only [hmax, if_true, defaultMinLength, defaultMaxLength]
  by_cases h0 : c.MinLength = 0
  · simp [h0]
  · have hle : ¬ c.MinLength > 15 := by omega
    simp [h0, hle]

/-- Witness of the amended C2: MinLength 0 and MaxLength 0 give the effective
lengths 8 and 15. -/
theorem NewGenerator_maxLength_default_witness :
    (⟨0, 0, 0, 0, 0, 0⟩ : Conditions).MaxLength = 0 ∧
    (⟨0, 0, 0, 0, 0, 0⟩ : Conditions).MinLength ≤ 15 ∧
    ((NewGenerator ⟨0, 0, 0, 0, 0, 0⟩ none).condition.MaxLength = 15 ∧
      ((⟨0, 0, 0, 0, 0, 0⟩ : Conditions).MinLength = 0 →
        (NewGenerator ⟨0, 0, 0, 0, 0, 0⟩ none).condition.MinLength = 8)) :=
  ⟨by decide, by decide,
    NewGenerator_maxLength_default ⟨0, 0, 0, 0, 0, 0⟩ none (by decide) (by decide)⟩

/-- The effective MaxLength: the defaulted MaxLength, unless the defaulted
MinLength exceeds it, in which case it is the machine sum MinLength + 1. -/
theorem NewGenerator_maxLength (c : Conditions) (o : Option (List Char)) :
    (NewGenerator c o).condition.MaxLength =
      if (if c.MinLength = 0 then 8 else c.MinLength) >
          (if c.MaxLength = 0 then 15 else c.MaxLength)
      then wrap64 ((if c.MinLength = 0 then 8 else c.MinLength) + 1)
      else (if c.MaxLength = 0 then 15 else c.MaxLength) := by
  rw [NewGenerator_condition]; rfl

/-- Away from the largest 64-bit MinLength the coercion of NewGenerator does
what it is written for: the effective MaxLength is at least the effective
MinLength. -/
theorem NewGenerator_maxLength_ge (c : Conditions) (o : Option (List Char))
    (hmin : inInt64 c.MinLength) (hne : c.MinLength ≠ 9223372036854775807) :
    (NewGenerator c o).condition.MinLength ≤ (NewGenerator c o).condition.MaxLength := by
  rw [NewGenerator_maxLength, NewGenerator_condition]
  dsimp only [defaultMinLength]
  unfold inInt64 at hmin
  have key : ∀ m M : Int, -9223372036854775808 ≤ m → m < 9223372036854775807 →
      m ≤ (if m > M then wrap64 (m + 1) else M) := by
    intro m M h1 h2
    split
    · unfold wrap64; omega
    · omega
  apply key <;> split <;> omega

/-- C3 at its failing input: for MinLength 9223372036854775807 and MaxLength 1
the sum MinLength + 1 overflows, the effective MaxLength is
-9223372036854775808 and lies below the effective MinLength. -/
theorem NewGenerator_maxLength_overflow :
    (NewGenerator ⟨0, 0, 0, 0, 9223372036854775807, 1⟩ none).condition.MinLength
      = 9223372036854775807 ∧
    (NewGenerator ⟨0, 0, 0, 0, 9223372036854775807, 1⟩ none).condition.MaxLength
      = -9223372036854775808 ∧
    ¬ ((NewGenerator ⟨0, 0, 0, 0, 9223372036854775807, 1⟩ none).condition.MaxLength ≥
        (NewGenerator ⟨0, 0, 0, 0, 9223372036854775807, 1⟩ none).condition.MinLength) := by
  decide

/-- C4: NewGenerator stores the four minimum counts and the override as they are
given, for every input; it is a total function, so it accepts every override,
the empty string included. -/
theorem NewGenerator_frame (c : Conditions) (o : Option (List Char)) :
    (NewGenerator c o).condition.MinUppercase = c.MinUppercase ∧
    (NewGenerator c o).condition.MinLowercase = c.MinLowercase ∧
    (NewGenerator c o).condition.MinNumber = c.MinNumber ∧
    (NewGenerator c o).condition.MinSpecialChar = c.MinSpecialChar ∧
    (NewGenerator c o).allowedSpecialChars = o ∧
    (NewGenerator c (some [])).allowedSpecialChars = some [] := by
  rw [NewGenerator_condition]
  exact ⟨rfl, rfl, rfl, rfl, rfl, rfl⟩

/-- The strict inequality holds whenever the defaulted lengths differ and
MinLength is not the largest 64-bit value. -/
theorem NewGenerator_maxLength_gt (c : Conditions) (o : Option (List Char))
    (hmin : inInt64 c.MinLength) (hne : c.MinLength ≠ 9223372036854775807)
    (hdiff : (if c.MinLength = 0 then 8 else c.MinLength) ≠
      (if c.MaxLength = 0 then 15 else c.MaxLength)) :
    (NewGenerator c o).condition.MinLength < (NewGenerator c o).condition.MaxLength := by
  rw [NewGenerator_maxLength, NewGenerator_condition]
  dsimp only [defaultMinLength]
  unfold inInt64 at hmin
  have key : ∀ m M : Int, -9223372036854775808 ≤ m → m < 9223372036854775807 → m ≠ M →
      m < (if m > M then wrap64 (m + 1) else M) := by
    intro m M h1 h2 h3
    split
    · unfold wrap64; omega
    · omega
  apply key
  · split <;> omega
  · split <;> omega
  · exact hdiff


/-! ## The package documentation against the code -/

/-- C9 at its failing input: with MinUppercase 20, MinLength 8 and MaxLength 15
the effective lengths are 8 and 15, Generate succeeds, and the password has 20
bytes, which is not below, nor equal to, the effective MaxLength. -/
theorem Generate_length_above_maxLength :
    (NewGenerator ⟨20, 0, 0, 0, 8, 15⟩ none).condition.MinLength = 8 ∧
    (NewGenerator ⟨20, 0, 0, 0, 8, 15⟩ none).condition.MaxLength = 15 ∧
    (Generate (zeros 21) (NewGenerator ⟨20, 0, 0, 0, 8, 15⟩ none) 0).out
      = .ok (List.replicate 20 'A') ∧
    ¬ ((List.replicate 20 'A').length ≤ 15) := by
  decide

/-- C10 at its failing input: for the zero Conditions value Generate succeeds
with the password AAAAAAAA, which holds no lowercase letter, no digit and no
special character. -/
theorem Generate_without_each_class :
    (Generate (zeros 9) (NewGenerator ⟨0, 0, 0, 0, 0, 0⟩ none) 0).out
      = .ok "AAAAAAAA".toList ∧
    countIn lowercaseLetters "AAAAAAAA".toList = 0 ∧
    countIn numbers "AAAAAAAA".toList = 0 ∧
    countIn (getSpecialChars (NewGenerator ⟨0, 0, 0, 0, 0, 0⟩ none)) "AAAAAAAA".toList = 0 := by
  decide

/-! ## Panics where the documentation promises an error or a value -/

/-- With the empty string as override and at least one special character asked
for, Generate never succeeds, and when every read it makes succeeds it panics. -/
theorem Generate_empty_override (rnd : Entropy) (p : PasswordGenerator) (pos : Nat)
    (hov : p.allowedSpecialChars = some []) (hmin : 1 ≤ p.condition.MinSpecialChar) :
    (∀ pw, (Generate rnd p pos).out ≠ .ok pw) ∧
    (DrawsOk rnd pos (Generate rnd p pos).pos →
      (Generate rnd p pos).out = .panic .randIntNonPositive) := by
  have hnok : ∀ pw, (Generate rnd p pos).out ≠ .ok pw := by
    intro pw h
    obtain ⟨L, hL, _, _⟩ := Generate_ok h
    have hlen := hL.special_length
    have hpos : 0 < L.special.length := by omega
    obtain ⟨c, hc⟩ := List.exists_mem_of_length_pos hpos
    have hm := hL.special_drawn.mem c hc
    simp [getSpecialChars, hov] at hm
  refine ⟨hnok, ?_⟩
  intro hall
  obtain ⟨hacc, _, _, _, hk⟩ := Generate_facts rnd p pos
  cases hout : (Generate rnd p pos).out with
  | ok pw => exact absurd hout (hnok pw)
  | error e =>
    rw [hout] at hacc
    obtain ⟨hle, hlt, _, hnone⟩ := hacc
    exact absurd hnone (hall _ (by omega) (by omega))
  | panic k => rw [(hk k hout).1]

/-- C12 at its failing input: with the empty override, MinSpecialChar 1 and
reads that all succeed, Generate does not return an error: the draw with limit
0 panics inside rand.Int. -/
theorem Generate_empty_override_panics :
    (Generate (zeros 9) (NewGenerator ⟨0, 0, 0, 1, 0, 0⟩ (some [])) 0).out
      = .panic .randIntNonPositive ∧
    (Generate (zeros 9) (NewGenerator ⟨0, 0, 0, 1, 0, 0⟩ (some [])) 0).err = none := by
  decide

/-- C15 at its failing input: for MinLength 10 and MaxLength 10 the guard
MinLength > MaxLength does not fire, the effective MaxLength equals the
effective MinLength, and the length draw of Generate panics on its empty range;
the same happens for MinLength 15 with MaxLength left unset. -/
theorem NewGenerator_equal_lengths :
    (NewGenerator ⟨0, 0, 0, 0, 10, 10⟩ none).condition.MinLength = 10 ∧
    (NewGenerator ⟨0, 0, 0, 0, 10, 10⟩ none).condition.MaxLength = 10 ∧
    ¬ ((NewGenerator ⟨0, 0, 0, 0, 10, 10⟩ none).condition.MaxLength >
        (NewGenerator ⟨0, 0, 0, 0, 10, 10⟩ none).condition.MinLength) ∧
    (Generate (zeros 9) (NewGenerator ⟨0, 0, 0, 0, 10, 10⟩ none) 0).out
      = .panic .randIntNonPositive ∧
    (NewGenerator ⟨0, 0, 0, 0, 15, 0⟩ none).condition.MinLength = 15 ∧
    (NewGenerator ⟨0, 0, 0, 0, 15, 0⟩ none).condition.MaxLength = 15 ∧
    (Generate (zeros 9) (NewGenerator ⟨0, 0, 0, 0, 15, 0⟩ none) 0).out
      = .panic .randIntNonPositive := by
  decide

/-! ## randBetween -/

theorem randInt_one (rnd : Entropy) (pos : Nat) : randInt rnd pos 1 = (.ok 0, pos) := by
  simp [randInt, bitLen, bitLenAux]

/-- With a bound above 1, a read that yields a number below the bound is
accepted as it is. -/
theorem randInt_accept (rnd : Entropy) (pos : Nat) (max : Int) (r : Nat)
    (hmax : 1 < max) (hr : readAt rnd pos = some r) (hlt : (r : Int) < max) :
    randInt rnd pos max = (.ok r, pos + 1) := by
  have hpos : ¬ max ≤ 0 := by omega
  have hbits : bitLen (max - 1).toNat ≠ 0 := by
    intro h
    have := bitLen_eq_zero.mp h
    omega
  have hpow : r < 2 ^ bitLen (max - 1).toNat := by
    have := lt_two_pow_bitLen (max - 1).toNat
    omega
  have hlen : pos < rnd.length := by
    by_contra hge
    have : readAt rnd pos = none := by
      simp only [readAt, List.getD_eq_getElem?_getD]
      rw [List.getElem?_eq_none (by omega)]
      rfl
    rw [this] at hr
    simp at hr
  have helem : rnd[pos] = some r := by
    simp only [readAt, List.getD_eq_getElem?_getD, List.getElem?_eq_getElem hlen,
      Option.getD_some] at hr
    exact hr
  have hdrop : rnd.drop pos = some r :: rnd.drop (pos + 1) := by
    rw [List.drop_eq_getElem_cons hlen, helem]
  have hmod : r % 2 ^ bitLen (max - 1).toNat = r := Nat.mod_eq_of_lt hpow
  simp only [randInt, hpos, if_false, hbits, hdrop, rejectionLoop, hmod, hlt, if_true]

/-- When `max - min` is positive and fits a 64-bit `int`, a read that yields `r`
below it makes `randBetween` return `min + r`, which lies in `[min, max)`. -/
theorem randBetween_value (rnd : Entropy) (pos : Nat) (min max : Int) (r : Nat)
    (hmin : inInt64 min) (hmax : inInt64 max) (hlt : min < max)
    (hfit : max - min ≤ 9223372036854775807)
    (hr : readAt rnd pos = some r) (hrange : (r : Int) < max - min) :
    (randBetween rnd pos min max).1 = .ok (min + r) ∧
    min ≤ min + (r : Int) ∧ min + (r : Int) < max := by
  have hd : wrap64 (max - min) = max - min := by
    apply wrap64_of_inInt64
    unfold inInt64; omega
  have hw : wrap64 ((r : Int) + min) = min + r := by
    rw [wrap64_of_inInt64]
    · omega
    · unfold inInt64 at hmin hmax ⊢; omega
  refine ⟨?_, by omega, by omega⟩
  by_cases hone : max - min = 1
  · have hr0 : (r : Int) = 0 := by omega
    have hd1 : wrap64 (max - min) = 1 := by rw [hd, hone]
    have hw0 : wrap64 (0 + min) = min + r := by
      rw [← hw, hr0]
    simp only [randBetween, hd1, randInt_one, hw0]
  · have hacc := randInt_accept rnd pos (max - min) r (by omega) hr hrange
    simp only [randBetween, hd, hacc, hw]

/-- Under the same condition every value of `[min, max)` is returned for exactly
one number below `max - min` delivered by the first read. -/
theorem randBetween_bijective (pos : Nat) (min max v : Int)
    (hmin : inInt64 min) (hmax : inInt64 max) (hfit : max - min ≤ 9223372036854775807)
    (hlo : min ≤ v) (hhi : v < max) :
    ∃! r : Nat, (r : Int) < max - min ∧
      (randBetween (List.replicate (pos + 1) (some r)) pos min max).1 = .ok v := by
  have hread : ∀ r : Nat, readAt (List.replicate (pos + 1) (some r)) pos = some r := by
    intro r
    simp [readAt]
  refine ⟨(v - min).toNat, ⟨by omega, ?_⟩, ?_⟩
  · have h := (randBetween_value (List.replicate (pos + 1) (some (v - min).toNat)) pos min max
      (v - min).toNat hmin hmax (by omega) hfit (hread _) (by omega)).1
    rw [h]
    have : min + ((v - min).toNat : Int) = v := by omega
    rw [this]
  · intro r ⟨hr, hres⟩
    have h := (randBetween_value (List.replicate (pos + 1) (some r)) pos min max r
      hmin hmax (by omega) hfit (hread r) hr).1
    rw [h] at hres
    simp only [Outcome.ok.injEq] at hres
    omega

/-- C14 at its failing input: for min = -1 and max = 9223372036854775807 the
machine difference max - min overflows to a negative number and randBetween
panics inside rand.Int, returning no value of [min, max). -/
theorem randBetween_overflow_panics :
    (-1 : Int) < 9223372036854775807 ∧
    wrap64 (9223372036854775807 - (-1)) = -9223372036854775808 ∧
    randBetween (zeros 9) 0 (-1) 9223372036854775807 = (.panic .randIntNonPositive, 0) := by
  decide

/-! ## Termination and success -/

/-- No call of `Generate` indexes a character set out of range: a panic, if
any, is the one of `rand.Int`. -/
theorem Generate_index_in_range (rnd : Entropy) (p : PasswordGenerator) (pos : Nat) :
    (Generate rnd p pos).out ≠ .panic .indexOutOfRange := by
  intro h
  obtain ⟨_, _, _, _, hk⟩ := Generate_facts rnd p pos
  have := (hk _ h).1
  simp at this

/-- The padding set has at least 62 bytes, whatever the override. -/
theorem eligible_length (p : PasswordGenerator) : 62 ≤ (eligible p).length := by
  unfold eligible
  simp only [List.length_append]
  have h1 : uppercaseLetters.length = 26 := by decide
  have h2 : lowercaseLetters.length = 26 := by decide
  have h3 : numbers.length = 10 := by decide
  omega

/-- When `MaxLength - MinLength` is positive and fits a 64-bit `int`, the active
special set is not empty or no special character is asked for, and every read
the run makes succeeds, Generate succeeds: the length draw yields a target `t`
in `[MinLength, MaxLength)`, the password has `max(M, t)` bytes, and the padding
phase makes exactly `max(0, t - M)` index draws. -/
theorem Generate_succeeds (rnd : Entropy) (p : PasswordGenerator) (pos : Nat)
    (hmin : inInt64 p.condition.MinLength) (hmax : inInt64 p.condition.MaxLength)
    (hlt : p.condition.MinLength < p.condition.MaxLength)
    (hfit : p.condition.MaxLength - p.condition.MinLength ≤ 9223372036854775807)
    (hsp : getSpecialChars p ≠ [] ∨ p.condition.MinSpecialChar ≤ 0)
    (hall : DrawsOk rnd pos (Generate rnd p pos).pos) :
    ∃ (pw padding : List Char) (t : Int) (targetEnd : Nat),
      (Generate rnd p pos).out = .ok pw ∧
      randBetween rnd (minimumEnd rnd p pos) p.condition.MinLength p.condition.MaxLength
        = (.ok t, targetEnd) ∧
      p.condition.MinLength ≤ t ∧ t < p.condition.MaxLength ∧
      (pw.length : Int) = max (minTotal p.condition : Int) t ∧
      IsDrawn rnd (eligible p) targetEnd padding (Generate rnd p pos).pos ∧
      padding.length = (t - (minTotal p.condition : Int)).toNat := by
  obtain ⟨hacc, _, _, _, hk⟩ := Generate_facts rnd p pos
  cases hout : (Generate rnd p pos).out with
  | error e =>
    rw [hout] at hacc
    obtain ⟨hle, hlt1, _, hnone⟩ := hacc
    exact absurd hnone (hall _ (by omega) (by omega))
  | panic k =>
    obtain ⟨_, hcause⟩ := hk k hout
    rcases hcause with ⟨hnil, hcount⟩ | ⟨_, hd⟩
    · rcases hsp with h | h
      · exact absurd hnil h
      · omega
    · have hw : wrap64 (p.condition.MaxLength - p.condition.MinLength) =
          p.condition.MaxLength - p.condition.MinLength := by
        apply wrap64_of_inInt64
        unfold inInt64; omega
      omega
  | ok pw =>
    obtain ⟨L, hL, hpw, hres⟩ := Generate_ok hout
    obtain ⟨t, targetEnd, hdraw, hmaxlen⟩ := Generate_length_max hout
    obtain ⟨hlo, hhi⟩ := randBetween_ok_range hmin hmax hlt hdraw
    have hmz : minimumEnd rnd p pos = L.specialEnd := hL.minimum_end
    rw [hmz, hL.target_drawn] at hdraw
    simp only [Prod.mk.injEq, Outcome.ok.injEq] at hdraw
    obtain ⟨ht, hte⟩ := hdraw
    subst ht; subst hte
    refine ⟨pw, L.padding, L.target, L.targetEnd, rfl, ?_, hlo, hhi, hmaxlen, ?_,
      hL.padding_length⟩
    · rw [hmz]; exact hL.target_drawn
    · rw [hres]; exact hL.padding_drawn

/-- C17 at its failing input: for MinLength -1 and MaxLength 9223372036854775807
the generator built by NewGenerator has MaxLength > MinLength and no special
character is asked for, every read succeeds, and Generate panics at the length
draw, because the machine difference MaxLength - MinLength overflows. -/
theorem Generate_wide_range_panics :
    (NewGenerator ⟨0, 0, 0, 0, -1, 9223372036854775807⟩ none).condition.MaxLength >
      (NewGenerator ⟨0, 0, 0, 0, -1, 9223372036854775807⟩ none).condition.MinLength ∧
    (NewGenerator ⟨0, 0, 0, 0, -1, 9223372036854775807⟩ none).condition.MinSpecialChar ≤ 0 ∧
    (Generate (zeros 9) (NewGenerator ⟨0, 0, 0, 0, -1, 9223372036854775807⟩ none) 0).out
      = .panic .randIntNonPositive := by
  decide

/-! ## The two copies of the generator -/

theorem RandBetween_eq : Src.RandBetween = randBetween := rfl

theorem RandomNumber_eq : Src.RandomNumber = randomNumber := rfl

theorem src_getSpecialChars_eq : Src.getSpecialChars = getSpecialChars := rfl

theorem src_addOneChar_eq : Src.addOneChar = addOneChar := rfl

theorem src_addMinimum_eq : Src.addMinimum = addMinimum := by
  funext rnd chars n
  induction n with
  | zero => rfl
  | succ n ih =>
    funext p pos
    simp only [Src.addMinimum, addMinimum, ih, src_addOneChar_eq]

theorem src_satisfyLoop_eq : Src.satisfyLoop = satisfyLoop := by
  funext rnd table
  induction table with
  | nil => rfl
  | cons t rest ih =>
    obtain ⟨chars, count⟩ := t
    funext p pos
    simp only [Src.satisfyLoop, satisfyLoop, ih, src_addMinimum_eq]

theorem src_satisfyMinimumCondition_eq :
    Src.satisfyMinimumCondition = satisfyMinimumCondition := by
  funext rnd p pos
  simp only [Src.satisfyMinimumCondition, satisfyMinimumCondition, src_satisfyLoop_eq]
  rfl

theorem src_padLoop_eq : Src.padLoop = padLoop := by
  funext rnd el t fuel
  induction fuel with
  | zero => rfl
  | succ fuel ih =>
    funext p pos
    simp only [Src.padLoop, padLoop, ih, src_addOneChar_eq]

/-- The two `Generate` methods are the same function of the stored conditions,
the override and the reads. -/
theorem src_Generate_eq : Src.Generate = Generate := by
  funext rnd p pos
  simp only [Src.Generate, Generate, src_satisfyMinimumCondition_eq, src_padLoop_eq,
    RandBetween_eq]
  rfl

/-- C18 at its failing input: for the zero Conditions value the root package
stores MinLength 8 and MaxLength 15, the copy under src/generator stores
MinLength 8 and MaxLength 8, so the stored conditions differ; on the same reads
the root Generate then succeeds while the copy panics at the length draw. -/
theorem NewGenerator_copies_differ :
    (NewGenerator ⟨0, 0, 0, 0, 0, 0⟩ none).condition = ⟨0, 0, 0, 0, 8, 15⟩ ∧
    (Src.NewGenerator ⟨0, 0, 0, 0, 0, 0⟩ none).condition = ⟨0, 0, 0, 0, 8, 8⟩ ∧
    (NewGenerator ⟨0, 0, 0, 0, 0, 0⟩ none).condition ≠
      (Src.NewGenerator ⟨0, 0, 0, 0, 0, 0⟩ none).condition ∧
    (Generate (zeros 9) (NewGenerator ⟨0, 0, 0, 0, 0, 0⟩ none) 0).out
      = .ok "AAAAAAAA".toList ∧
    (Src.Generate (zeros 9) (Src.NewGenerator ⟨0, 0, 0, 0, 0, 0⟩ none) 0).out
      = .panic .randIntNonPositive := by
  decide

/-! ## Draws that read nothing, and rejected candidates -/

/-- A draw with bound 1 reads nothing and cannot fail: with MinLength 20 and
MaxLength unset the length draw has bound 1, so on a source whose every read
fails the call stops in the padding phase, not at the length draw. -/
theorem Generate_length_draw_without_read :
    (NewGenerator ⟨0, 0, 0, 0, 20, 0⟩ none).condition.MaxLength = 21 ∧
    Generate [] (NewGenerator ⟨0, 0, 0, 0, 20, 0⟩ none) 0 =
      ⟨.error (.wrap paddingMessage .entropy), ⟨⟨0, 0, 0, 0, 20, 21⟩, [], none⟩, 1⟩ := by
  decide

/-- With a one-byte override, three special characters asked for and the
lengths 3 and 4, no draw reads: Generate succeeds on a source whose every read
fails. -/
theorem Generate_without_any_read :
    Generate [] (NewGenerator ⟨0, 0, 0, 3, 3, 4⟩ (some "%".toList)) 0 =
      ⟨.ok "%%%".toList, ⟨⟨0, 0, 0, 3, 3, 4⟩, "%%%".toList, some "%".toList⟩, 0⟩ := by
  decide

/-- The special draw on a one-byte override reads nothing, so the length draw
takes the first read: the target is 3 + 0 and the password has 3 bytes. -/
theorem Generate_length_draw_takes_first_read :
    Generate (tape [0, 1, 1, 1]) (NewGenerator ⟨0, 0, 0, 1, 3, 5⟩ (some "%".toList)) 0 =
      ⟨.ok "%BB".toList, ⟨⟨0, 0, 0, 1, 3, 5⟩, "%BB".toList, some "%".toList⟩, 3⟩ := by
  decide

/-- A candidate at or above the bound is read again: for the bound 26 the reads
26 and 31 are rejected and 25 is taken; a number of more than 5 bits is cut to
its low 5 bits, so 33 gives 1. -/
theorem randInt_rejection :
    randInt (tape [26, 31, 25, 7]) 0 26 = (.ok 25, 3) ∧
    randInt (tape [33, 7]) 0 26 = (.ok 1, 1) ∧
    randInt (tape [26, 31]) 0 26 = (.error .entropy, 3) ∧
    randInt [some 26, none, some 3] 0 26 = (.error .entropy, 2) := by
  decide

end PassGen
